import Mathlib

/-!
Verification development for the Wedding-Face-Forward processing engine.

The definitions below are shallow embeddings of the Python source:
  * `cluster.py`   — cosine distance, centroid updates, person assignment, merge
  * `db.py`        — start-up recovery, person table, upload-path rewriting
  * `router.py`    — Solo/Group fan-out over an explicit file-system map
  * `phase.py`     — the PROCESSING/UPLOADING phase coordinator
  * `enrollment.py`— selfie-based enrollment
  * `worker.py`    — the per-photo pipeline's status decisions

Machine floats are modelled as exact reals; a NumPy vector becomes a
function `Fin n → ℝ`.
-/

namespace WFF

/-- Embedding vectors: NumPy arrays of dimension `n` over exact reals. -/
def Vec (n : ℕ) : Type := Fin n → ℝ

namespace Vec

instance (n : ℕ) : Add (Vec n) := ⟨fun a b i => a i + b i⟩
instance (n : ℕ) : Neg (Vec n) := ⟨fun a i => -(a i)⟩
instance (n : ℕ) : SMul ℝ (Vec n) := ⟨fun c a i => c * a i⟩
instance (n : ℕ) : Zero (Vec n) := ⟨fun _ => 0⟩

@[simp] theorem add_apply {n : ℕ} (a b : Vec n) (i : Fin n) :
    (a + b) i = a i + b i := rfl

@[simp] theorem neg_apply {n : ℕ} (a : Vec n) (i : Fin n) :
    (-a) i = -(a i) := rfl

@[simp] theorem smul_apply {n : ℕ} (c : ℝ) (a : Vec n) (i : Fin n) :
    (c • a) i = c * a i := rfl

@[simp] theorem zero_apply {n : ℕ} (i : Fin n) : (0 : Vec n) i = 0 := rfl

end Vec

/-- `np.dot(a, b)`. -/
noncomputable def dot {n : ℕ} (a b : Vec n) : ℝ := ∑ i, a i * b i

/-- Squared Euclidean norm `∑ aᵢ²`. -/
noncomputable def norm2 {n : ℕ} (a : Vec n) : ℝ := dot a a

/-- `np.linalg.norm(a)`. -/
noncomputable def vnorm {n : ℕ} (a : Vec n) : ℝ := Real.sqrt (norm2 a)

theorem norm2_nonneg {n : ℕ} (a : Vec n) : 0 ≤ norm2 a := by
  unfold norm2 dot
  exact Finset.sum_nonneg fun i _ => mul_self_nonneg (a i)

theorem vnorm_nonneg {n : ℕ} (a : Vec n) : 0 ≤ vnorm a := Real.sqrt_nonneg _

theorem norm2_eq_sq_vnorm {n : ℕ} (a : Vec n) : norm2 a = vnorm a * vnorm a :=
  (Real.mul_self_sqrt (norm2_nonneg a)).symm

theorem norm2_eq_zero_iff {n : ℕ} (a : Vec n) : norm2 a = 0 ↔ a = 0 := by
  unfold norm2 dot
  constructor
  · intro h
    funext i
    have h' := (Finset.sum_eq_zero_iff_of_nonneg
      (fun j _ => mul_self_nonneg (a j))).1 h i (Finset.mem_univ i)
    exact mul_self_eq_zero.1 h'
  · intro h
    subst h
    simp

theorem vnorm_eq_zero_iff {n : ℕ} (a : Vec n) : vnorm a = 0 ↔ a = 0 := by
  unfold vnorm
  rw [Real.sqrt_eq_zero (norm2_nonneg a)]
  exact norm2_eq_zero_iff a

theorem vnorm_pos_of_ne_zero {n : ℕ} {a : Vec n} (h : a ≠ 0) : 0 < vnorm a :=
  lt_of_le_of_ne (vnorm_nonneg a) fun h0 => h ((vnorm_eq_zero_iff a).1 h0.symm)

theorem norm2_smul {n : ℕ} (c : ℝ) (a : Vec n) :
    norm2 (c • a) = c ^ 2 * norm2 a := by
  unfold norm2 dot
  rw [Finset.mul_sum]
  refine Finset.sum_congr rfl fun i _ => ?_
  simp [Vec.smul_apply]
  ring

theorem vnorm_smul {n : ℕ} (c : ℝ) (a : Vec n) :
    vnorm (c • a) = |c| * vnorm a := by
  unfold vnorm
  rw [norm2_smul, Real.sqrt_mul (sq_nonneg c), Real.sqrt_sq_eq_abs]

/-- Normalization step at the top of `assign_person` (`cluster.py:106-109`):
the embedding is divided by its norm when the norm is positive, otherwise
left unchanged. -/
noncomputable def normalizeV {n : ℕ} (a : Vec n) : Vec n :=
  if 0 < vnorm a then (vnorm a)⁻¹ • a else a

theorem vnorm_normalizeV {n : ℕ} {a : Vec n} (h : vnorm a ≠ 0) :
    vnorm (normalizeV a) = 1 := by
  have hpos : 0 < vnorm a := lt_of_le_of_ne (vnorm_nonneg a) (Ne.symm h)
  unfold normalizeV
  rw [if_pos hpos, vnorm_smul, abs_of_pos (inv_pos.2 hpos)]
  field_simp

theorem normalizeV_zero {n : ℕ} : normalizeV (0 : Vec n) = 0 := by
  unfold normalizeV
  rw [if_neg]
  rw [(vnorm_eq_zero_iff (0 : Vec n)).2 rfl]
  exact lt_irrefl 0

/-- `cosine_distance` (`cluster.py:18-32`): maximum distance 2 for a zero
vector, otherwise `1 - clip(a·b / (|a||b|), -1, 1)`. -/
noncomputable def cosineDistance {n : ℕ} (a b : Vec n) : ℝ :=
  if vnorm a = 0 ∨ vnorm b = 0 then 2
  else 1 - min 1 (max (-1) (dot a b / (vnorm a * vnorm b)))

theorem cosineDistance_nonneg {n : ℕ} (a b : Vec n) :
    0 ≤ cosineDistance a b := by
  unfold cosineDistance
  split
  · norm_num
  · have : min 1 (max (-1) (dot a b / (vnorm a * vnorm b))) ≤ 1 := min_le_left _ _
    linarith

theorem cosineDistance_le_two {n : ℕ} (a b : Vec n) :
    cosineDistance a b ≤ 2 := by
  unfold cosineDistance
  split
  · norm_num
  · have h1 : (-1 : ℝ) ≤ max (-1) (dot a b / (vnorm a * vnorm b)) := le_max_left _ _
    have h2 : (-1 : ℝ) ≤ min 1 (max (-1) (dot a b / (vnorm a * vnorm b))) :=
      le_min (by norm_num) h1
    linarith

theorem cosineDistance_zero_left {n : ℕ} (b : Vec n) :
    cosineDistance (0 : Vec n) b = 2 := by
  unfold cosineDistance
  rw [if_pos]
  left
  exact (vnorm_eq_zero_iff _).2 rfl

theorem dot_self_eq_norm2 {n : ℕ} (a : Vec n) : dot a a = norm2 a := rfl

theorem dot_neg_left {n : ℕ} (a b : Vec n) : dot (-a) b = -dot a b := by
  unfold dot
  rw [← Finset.sum_neg_distrib]
  exact Finset.sum_congr rfl fun i _ => by simp [Vec.neg_apply]

/-- Antipodal unit vectors are at cosine distance exactly 2. -/
theorem cosineDistance_neg_self {n : ℕ} {c : Vec n} (hc : vnorm c = 1) :
    cosineDistance (-c) c = 2 := by
  have hnorm2 : norm2 c = 1 := by
    rw [norm2_eq_sq_vnorm, hc]; norm_num
  have hneg : vnorm (-c) = 1 := by
    have : (-c : Vec n) = (-1 : ℝ) • c := by
      funext i; simp [Vec.neg_apply, Vec.smul_apply]
    rw [this, vnorm_smul, hc]; norm_num
  unfold cosineDistance
  rw [if_neg]
  · rw [dot_neg_left, dot_self_eq_norm2, hnorm2, hc, hneg]
    norm_num
  · rw [hneg, hc]; norm_num

/-- A person cluster row (`persons` table: `id`, `name`, `centroid`,
`face_count`). -/
structure PersonR (n : ℕ) where
  id : ℕ
  name : String
  centroid : Vec n
  face_count : ℕ

/-- `update_centroid` (`cluster.py:63-77`): running mean
`(old*count + e)/(count+1)`, re-normalized when the result has positive
norm. -/
noncomputable def updateCentroid {n : ℕ} (old : Vec n) (e : Vec n) (k : ℕ) : Vec n :=
  let c := ((k : ℝ) + 1)⁻¹ • ((k : ℝ) • old + e)
  if 0 < vnorm c then (vnorm c)⁻¹ • c else c

/-- The centroid blend inside `merge_persons` (`cluster.py:212-222`):
face-count-weighted average of the two centroids, re-normalized when the
result has positive norm. -/
noncomputable def mergeCentroid {n : ℕ} (c1 : Vec n) (k1 : ℕ) (c2 : Vec n) (k2 : ℕ) : Vec n :=
  let c := (((k1 : ℝ) + (k2 : ℝ)))⁻¹ • ((k1 : ℝ) • c1 + (k2 : ℝ) • c2)
  if 0 < vnorm c then (vnorm c)⁻¹ • c else c

/-- The centroid recomputation in `_cleanup_orphaned_faces`
(`db.py:336-355`): mean of the surviving face embeddings, re-normalized
when the result has positive norm. -/
noncomputable def recomputeCentroid {n : ℕ} (embs : List (Vec n)) : Vec n :=
  let c := ((embs.length : ℝ))⁻¹ • (embs.foldr (· + ·) 0)
  if 0 < vnorm c then (vnorm c)⁻¹ • c else c

/-- The scan loop of `find_nearest_person` (`cluster.py:51-58`): carries the
best person and distance so far, replacing them only on a strictly smaller
distance. -/
noncomputable def findNearestGo {n : ℕ} (e : Vec n) (best : PersonR n) (bestd : ℝ) :
    List (PersonR n) → PersonR n × ℝ
  | [] => (best, bestd)
  | q :: qs =>
      if cosineDistance e q.centroid < bestd
      then findNearestGo e q (cosineDistance e q.centroid) qs
      else findNearestGo e best bestd qs

/-- `find_nearest_person` (`cluster.py:40-60`): `none` for an empty person
list (the source returns `(None, inf)`), otherwise the first person
attaining the minimum cosine distance, with that distance. -/
noncomputable def findNearest {n : ℕ} (e : Vec n) :
    List (PersonR n) → Option (PersonR n × ℝ)
  | [] => none
  | p :: ps => some (findNearestGo e p (cosineDistance e p.centroid) ps)

/-- `SELECT MAX(id) FROM persons` with `NULL` read as 0
(`get_next_person_number`, `db.py:588-595`, before the `+ 1`). -/
def maxPersonId {n : ℕ} (l : List (PersonR n)) : ℕ :=
  l.foldr (fun p m => max p.id m) 0

/-- Python's `f"{k:0wd}"`: decimal digits left-padded with zeros to width
`w`. -/
def padZeros (w : ℕ) (k : ℕ) : String :=
  let s := toString k
  String.mk (List.replicate (w - s.length) '0') ++ s

/-- The `else` branch of `assign_person` (`cluster.py:133-141`): a fresh
person named `Person_<max(id)+1 padded to 3>` whose centroid is the
(already normalized) embedding and whose `face_count` is 1.  The new row id
is the next rowid, `max(id)+1`. -/
noncomputable def createNewPerson {n : ℕ} (e' : Vec n) (persons : List (PersonR n)) :
    List (PersonR n) × ℕ :=
  let next := maxPersonId persons + 1
  (persons ++ [⟨next, "Person_" ++ padZeros 3 next, e', 1⟩], next)

/-- `assign_person` (`cluster.py:80-141`) as a pure transition on the
persons table: normalize the embedding, find the nearest person, assign to
it when the distance is strictly below the threshold (updating centroid and
face count), otherwise create a new person.  Returns the new table and the
assigned person id. -/
noncomputable def assignPerson {n : ℕ} (t : ℝ) (e : Vec n) (persons : List (PersonR n)) :
    List (PersonR n) × ℕ :=
  let e' := normalizeV e
  match findNearest e' persons with
  | some (p, d) =>
      if d < t then
        (persons.map fun q =>
          if q.id = p.id then
            { q with centroid := updateCentroid p.centroid e' p.face_count,
                     face_count := p.face_count + 1 }
          else q,
         p.id)
      else createNewPerson e' persons
  | none => createNewPerson e' persons

/-- `merge_persons` (`cluster.py:196-241`) restricted to the persons table:
blend the two centroids weighted by face count into the kept person, delete
the removed person.  (Face reassignment lives in the faces table and does
not affect this invariant.) -/
noncomputable def mergePersons {n : ℕ} (keep remove : ℕ) (persons : List (PersonR n)) :
    List (PersonR n) :=
  match persons.find? (fun p => p.id == keep), persons.find? (fun p => p.id == remove) with
  | some pk, some pr =>
      (persons.map fun q =>
        if q.id = keep then
          { q with centroid := mergeCentroid pk.centroid pk.face_count pr.centroid pr.face_count,
                   face_count := pk.face_count + pr.face_count }
        else q).filter (fun q => q.id ≠ remove)
  | _, _ => persons

theorem findNearestGo_spec {n : ℕ} (e : Vec n) (l : List (PersonR n)) :
    ∀ (b : PersonR n) (d : ℝ),
      ((findNearestGo e b d l).1 = b ∨ (findNearestGo e b d l).1 ∈ l)
      ∧ (findNearestGo e b d l).2 ≤ d
      ∧ (∀ q ∈ l, (findNearestGo e b d l).2 ≤ cosineDistance e q.centroid)
      ∧ (d = cosineDistance e b.centroid →
           (findNearestGo e b d l).2 = cosineDistance e (findNearestGo e b d l).1.centroid)
      ∧ ((findNearestGo e b d l).2 = d → (findNearestGo e b d l).1 = b) := by
  induction l with
  | nil =>
      intro b d
      simp [findNearestGo]
  | cons x xs ih =>
      intro b d
      by_cases hlt : cosineDistance e x.centroid < d
      · simp only [findNearestGo, if_pos hlt]
        obtain ⟨hmem, hle, hall, hatt, hsame⟩ := ih x (cosineDistance e x.centroid)
        refine ⟨?_, ?_, ?_, ?_, ?_⟩
        · rcases hmem with h | h
          · exact Or.inr (by simp [h])
          · exact Or.inr (List.mem_cons_of_mem _ h)
        · exact le_of_lt (lt_of_le_of_lt hle hlt)
        · intro q hq
          rcases List.mem_cons.1 hq with h | h
          · subst h; exact hle
          · exact hall q h
        · intro _
          exact hatt rfl
        · intro h2
          exact absurd h2 (ne_of_lt (lt_of_le_of_lt hle hlt))
      · simp only [findNearestGo, if_neg hlt]
        obtain ⟨hmem, hle, hall, hatt, hsame⟩ := ih b d
        refine ⟨?_, hle, ?_, hatt, hsame⟩
        · rcases hmem with h | h
          · exact Or.inl h
          · exact Or.inr (List.mem_cons_of_mem _ h)
        · intro q hq
          rcases List.mem_cons.1 hq with h | h
          · subst h; exact le_trans hle (not_lt.1 hlt)
          · exact hall q h

theorem findNearestGo_minId {n : ℕ} (e : Vec n) (l : List (PersonR n)) :
    ∀ (b : PersonR n) (d : ℝ),
      d = cosineDistance e b.centroid →
      (∀ q ∈ l, b.id < q.id) →
      l.Pairwise (fun a c => a.id < c.id) →
      ∀ q, (q = b ∨ q ∈ l) →
        cosineDistance e q.centroid = (findNearestGo e b d l).2 →
        (findNearestGo e b d l).1.id ≤ q.id := by
  induction l with
  | nil =>
      intro b d hd _ _ q hq hdist
      simp only [findNearestGo] at hdist ⊢
      rcases hq with h | h
      · subst h; exact le_refl _
      · exact absurd h (List.not_mem_nil q)
  | cons x xs ih =>
      intro b d hd hb hpair q hq hdist
      obtain ⟨hx, hpair'⟩ := List.pairwise_cons.1 hpair
      by_cases hlt : cosineDistance e x.centroid < d
      · simp only [findNearestGo, if_pos hlt] at hdist ⊢
        have hle2 := (findNearestGo_spec e xs x (cosineDistance e x.centroid)).2.1
        rcases hq with h | h
        · -- q = b: impossible, the running distance already improved below d
          rw [h, ← hd] at hdist
          exact absurd hdist (ne_of_gt (lt_of_le_of_lt hle2 hlt))
        · rcases List.mem_cons.1 h with h' | h'
          · rw [h'] at hdist ⊢
            exact ih x (cosineDistance e x.centroid) rfl hx hpair' x (Or.inl rfl) hdist
          · exact ih x (cosineDistance e x.centroid) rfl hx hpair' q (Or.inr h') hdist
      · simp only [findNearestGo, if_neg hlt] at hdist ⊢
        rcases hq with h | h
        · exact ih b d hd (fun q hq => hb q (List.mem_cons_of_mem _ hq)) hpair' q (Or.inl h) hdist
        · rcases List.mem_cons.1 h with h' | h'
          · -- q = x: no improvement ever happened, so the result is still b
            rw [h'] at hdist ⊢
            have hle2 := (findNearestGo_spec e xs b d).2.1
            have heq : (findNearestGo e b d xs).2 = d :=
              le_antisymm hle2 (hdist ▸ not_lt.1 hlt)
            have hres : (findNearestGo e b d xs).1 = b :=
              (findNearestGo_spec e xs b d).2.2.2.2 heq
            rw [hres]
            exact le_of_lt (hb x (List.mem_cons_self x xs))
          · exact ih b d hd (fun q hq => hb q (List.mem_cons_of_mem _ hq)) hpair' q (Or.inr h') hdist

/-- Full characterization of `find_nearest_person` on a non-empty person
list sorted by ascending id (the `ORDER BY id` of `get_all_persons`,
`db.py:570-577`): the result is a member attaining the minimum distance,
and at equal distances the smallest id wins. -/
theorem findNearest_spec {n : ℕ} (e : Vec n) (persons : List (PersonR n))
    (hsort : persons.Pairwise (fun a c => a.id < c.id))
    (p : PersonR n) (d : ℝ) (h : findNearest e persons = some (p, d)) :
    p ∈ persons
    ∧ d = cosineDistance e p.centroid
    ∧ (∀ q ∈ persons, d ≤ cosineDistance e q.centroid)
    ∧ (∀ q ∈ persons, cosineDistance e q.centroid = d → p.id ≤ q.id) := by
  cases persons with
  | nil => simp [findNearest] at h
  | cons hd tl =>
      simp only [findNearest, Option.some.injEq] at h
      obtain ⟨hx, hpair'⟩ := List.pairwise_cons.1 hsort
      obtain ⟨hmem, hle, hall, hatt, _⟩ :=
        findNearestGo_spec e tl hd (cosineDistance e hd.centroid)
      have hp : p = (findNearestGo e hd (cosineDistance e hd.centroid) tl).1 := by
        rw [h]
      have hdd : d = (findNearestGo e hd (cosineDistance e hd.centroid) tl).2 := by
        rw [h]
      refine ⟨?_, ?_, ?_, ?_⟩
      · rw [hp]
        rcases hmem with h' | h'
        · rw [h']; exact List.mem_cons_self _ _
        · exact List.mem_cons_of_mem _ h'
      · rw [hp, hdd]
        exact hatt rfl
      · intro q hq
        rcases List.mem_cons.1 hq with h' | h'
        · subst h'; rw [hdd]; exact hle
        · rw [hdd]; exact hall q h'
      · intro q hq hqd
        rw [hp]
        refine findNearestGo_minId e tl hd (cosineDistance e hd.centroid) rfl hx hpair' q ?_ ?_
        · rcases List.mem_cons.1 hq with h' | h'
          · exact Or.inl h'
          · exact Or.inr h'
        · rw [hqd, hdd]

theorem findNearestGo_const {n : ℕ} (e : Vec n) (l : List (PersonR n)) :
    ∀ (b : PersonR n) (d : ℝ),
      (∀ q ∈ l, cosineDistance e q.centroid = d) →
      findNearestGo e b d l = (b, d) := by
  induction l with
  | nil => intro b d _; simp [findNearestGo]
  | cons x xs ih =>
      intro b d hall
      have hx : cosineDistance e x.centroid = d := hall x (List.mem_cons_self _ _)
      simp only [findNearestGo, hx, lt_irrefl, if_false]
      exact ih b d fun q hq => hall q (List.mem_cons_of_mem _ hq)

/-- Concrete one-dimensional unit embedding used by witnesses. -/
noncomputable def e1 : Vec 1 := fun _ => 1

/-- Concrete one-dimensional antipodal unit embedding used by witnesses. -/
noncomputable def em1 : Vec 1 := fun _ => -1

theorem vnorm_e1 : vnorm e1 = 1 := by
  unfold vnorm norm2 dot e1
  rw [Fin.sum_univ_one]
  norm_num

theorem vnorm_em1 : vnorm em1 = 1 := by
  unfold vnorm norm2 dot em1
  rw [Fin.sum_univ_one]
  norm_num

theorem normalizeV_e1 : normalizeV e1 = e1 := by
  unfold normalizeV
  rw [vnorm_e1]
  norm_num
  funext i
  rw [Vec.smul_apply]
  ring

/-- C1: `assign_person` first normalizes the embedding to unit length; if
the minimum cosine distance to the stored centroids is strictly below the
threshold it assigns to the person attaining that minimum (smallest id on
ties, because `get_all_persons` scans in ascending id order and the
comparison is strict), updating that person's centroid to the renormalized
running mean and its face count to `n+1`; otherwise it creates a new person
named `Person_<max(id)+1, zero-padded to 3>` with the normalized embedding
as centroid and face count 1.  (`cluster.py:80-141`, `db.py:570-595`.) -/
theorem C1_assign_person {n : ℕ} (t : ℝ) (e : Vec n) (persons : List (PersonR n))
    (hsort : persons.Pairwise (fun a c => a.id < c.id))
    (he : vnorm e ≠ 0) :
    vnorm (normalizeV e) = 1
    ∧ (∀ p d, findNearest (normalizeV e) persons = some (p, d) →
        p ∈ persons
        ∧ d = cosineDistance (normalizeV e) p.centroid
        ∧ (∀ q ∈ persons, d ≤ cosineDistance (normalizeV e) q.centroid)
        ∧ (∀ q ∈ persons, cosineDistance (normalizeV e) q.centroid = d → p.id ≤ q.id)
        ∧ (d < t →
            assignPerson t e persons =
              (persons.map fun q =>
                 if q.id = p.id then
                   { q with centroid := updateCentroid p.centroid (normalizeV e) p.face_count,
                            face_count := p.face_count + 1 }
                 else q,
               p.id))
        ∧ (¬ d < t →
            assignPerson t e persons =
              (persons ++ [⟨maxPersonId persons + 1,
                            "Person_" ++ padZeros 3 (maxPersonId persons + 1),
                            normalizeV e, 1⟩],
               maxPersonId persons + 1)))
    ∧ (persons = [] →
        assignPerson t e persons = ([⟨1, "Person_001", normalizeV e, 1⟩], 1)) := by
  refine ⟨vnorm_normalizeV he, ?_, ?_⟩
  · intro p d h
    obtain ⟨hmem, hatt, hmin, hid⟩ := findNearest_spec (normalizeV e) persons hsort p d h
    refine ⟨hmem, hatt, hmin, hid, ?_, ?_⟩
    · intro hlt
      unfold assignPerson
      simp only [h, if_pos hlt]
    · intro hge
      unfold assignPerson createNewPerson
      simp only [h, if_neg hge]
  · intro hnil
    have hs : "Person_" ++ padZeros 3 1 = "Person_001" := by decide
    subst hnil
    unfold assignPerson createNewPerson findNearest maxPersonId
    simp [hs]

/-- Witness for C1 at a concrete input: one stored person with unit
centroid, a unit embedding; both hypotheses hold and the normalized
embedding has unit norm. -/
theorem C1_assign_person_w :
    ([⟨1, "Person_001", e1, 1⟩] : List (PersonR 1)).Pairwise (fun a c => a.id < c.id)
    ∧ vnorm e1 ≠ 0
    ∧ vnorm (normalizeV e1) = 1 := by
  have h1 : ([⟨1, "Person_001", e1, 1⟩] : List (PersonR 1)).Pairwise
      (fun a c => a.id < c.id) := List.pairwise_singleton _ _
  have h2 : vnorm e1 ≠ 0 := by rw [vnorm_e1]; norm_num
  exact ⟨h1, h2, (C1_assign_person 0.6 e1 _ h1 h2).1⟩

theorem smul_zero_vec {n : ℕ} (r : ℝ) : r • (0 : Vec n) = 0 := by
  funext i
  simp

theorem smul_ne_zero_vec {n : ℕ} {r : ℝ} {v : Vec n} (hr : r ≠ 0) (hv : v ≠ 0) :
    r • v ≠ 0 := by
  intro h
  apply hv
  funext i
  have hi := congrFun h i
  rw [Vec.smul_apply] at hi
  rcases mul_eq_zero.1 hi with h' | h'
  · exact absurd h' hr
  · exact h'

/-- The shared `norm > 0` re-normalization guard: applied to a non-zero
vector it always yields a unit vector. -/
theorem vnorm_guard_normalize {n : ℕ} {a : Vec n} (h : a ≠ 0) :
    vnorm (if 0 < vnorm a then (vnorm a)⁻¹ • a else a) = 1 := by
  have hpos := vnorm_pos_of_ne_zero h
  rw [if_pos hpos, vnorm_smul, abs_of_pos (inv_pos.2 hpos)]
  field_simp

/-- The running-mean numerator `k·c + e` cannot vanish for unit `c`, unit
`e` at cosine distance `< 2` from `c`. -/
theorem running_mean_numerator_ne_zero {n : ℕ} {c e : Vec n} {k : ℕ}
    (hc : vnorm c = 1) (he : vnorm e = 1) (hd : cosineDistance e c < 2) :
    (k : ℝ) • c + e ≠ 0 := by
  intro h0
  have he' : e = (-(k : ℝ)) • c := by
    funext i
    have hi := congrFun h0 i
    rw [Vec.add_apply, Vec.smul_apply, Vec.zero_apply] at hi
    rw [Vec.smul_apply]
    linarith
  have hk : (k : ℝ) = 1 := by
    have h1 : vnorm e = (k : ℝ) := by
      rw [he', vnorm_smul, hc, abs_neg, abs_of_nonneg (Nat.cast_nonneg k)]
      ring
    rw [he] at h1
    exact h1.symm
  have hec : e = -c := by
    rw [he', hk]
    funext i
    rw [Vec.smul_apply, Vec.neg_apply]
    ring
  rw [hec, cosineDistance_neg_self hc] at hd
  exact lt_irrefl 2 hd

/-- C3 counterexample: merging two unit-centroid persons with equal face
counts and antipodal centroids (a state `assign_person` itself can create,
since antipodal embeddings are at distance 2 ≥ threshold) stores the
un-normalizable zero vector as the surviving centroid, whose norm 0 is not
within 1e-6 of 1. -/
theorem C3_centroid_unit_cex :
    mergePersons 1 2
        ([⟨1, "Person_001", e1, 1⟩, ⟨2, "Person_002", em1, 1⟩] : List (PersonR 1))
      = [⟨1, "Person_001", mergeCentroid e1 1 em1 1, 2⟩]
    ∧ vnorm (mergeCentroid e1 1 em1 1) = 0
    ∧ ¬ |vnorm (mergeCentroid e1 1 em1 1) - 1| ≤ 1 / 1000000 := by
  have hsum : ((1 : ℕ) : ℝ) • e1 + ((1 : ℕ) : ℝ) • em1 = (0 : Vec 1) := by
    funext i
    simp [e1, em1]
  have hzero : mergeCentroid e1 1 em1 1 = (0 : Vec 1) := by
    unfold mergeCentroid
    rw [hsum, smul_zero_vec]
    rw [if_neg]
    rw [(vnorm_eq_zero_iff (0 : Vec 1)).2 rfl]
    exact lt_irrefl 0
  refine ⟨?_, ?_, ?_⟩
  · simp [mergePersons, List.find?, List.filter, List.map]
  · rw [hzero]
    exact (vnorm_eq_zero_iff _).2 rfl
  · rw [hzero, (vnorm_eq_zero_iff (0 : Vec 1)).2 rfl]
    rw [abs_of_nonpos (by norm_num)]
    norm_num

/-- C3 (amended): each centroid-producing operation yields a unit-norm
centroid whenever the vector it re-normalizes is non-zero: creation from a
non-zero embedding; the running-mean update for unit inputs at distance
< 2 (always the case on a threshold ≤ 2 match); the merge blend when the
weighted centroid sum is non-zero; the recovery recomputation when the
surviving-embedding sum is non-zero.  The merge of antipodal equal-weight
clusters (see the counterexample) is exactly the excluded case. -/
theorem C3_centroid_normalization {n : ℕ} :
    (∀ e : Vec n, vnorm e ≠ 0 → vnorm (normalizeV e) = 1)
    ∧ (∀ (c e : Vec n) (k : ℕ), vnorm c = 1 → vnorm e = 1 →
         cosineDistance e c < 2 → vnorm (updateCentroid c e k) = 1)
    ∧ (∀ (c1 c2 : Vec n) (k1 k2 : ℕ), 0 < k1 + k2 →
         (k1 : ℝ) • c1 + (k2 : ℝ) • c2 ≠ 0 →
         vnorm (mergeCentroid c1 k1 c2 k2) = 1)
    ∧ (∀ embs : List (Vec n), embs ≠ [] →
         embs.foldr (· + ·) 0 ≠ 0 →
         vnorm (recomputeCentroid embs) = 1) := by
  refine ⟨?_, ?_, ?_, ?_⟩
  · intro e he
    exact vnorm_normalizeV he
  · intro c e k hc he hd
    unfold updateCentroid
    apply vnorm_guard_normalize
    apply smul_ne_zero_vec
    · positivity
    · exact running_mean_numerator_ne_zero hc he hd
  · intro c1 c2 k1 k2 hk hsum
    unfold mergeCentroid
    apply vnorm_guard_normalize
    apply smul_ne_zero_vec
    · have hcast : (0 : ℝ) < (k1 : ℝ) + (k2 : ℝ) := by
        have h0 : (0 : ℝ) < ((k1 + k2 : ℕ) : ℝ) := Nat.cast_pos.2 hk
        push_cast at h0
        linarith
      positivity
    · exact hsum
  · intro embs hne hsum
    unfold recomputeCentroid
    apply vnorm_guard_normalize
    apply smul_ne_zero_vec
    · have : 0 < embs.length := List.length_pos.2 hne
      have : (0 : ℝ) < (embs.length : ℝ) := Nat.cast_pos.2 this
      positivity
    · exact hsum

/-- Witness for the amended C3: all four operations evaluated at concrete
unit vectors in dimension 1, all hypotheses discharged there. -/
theorem C3_centroid_normalization_w :
    (vnorm e1 ≠ 0 ∧ vnorm (normalizeV e1) = 1)
    ∧ (vnorm e1 = 1 ∧ cosineDistance e1 e1 < 2 ∧ vnorm (updateCentroid e1 e1 1) = 1)
    ∧ (0 < 1 + 1 ∧ ((1 : ℕ) : ℝ) • e1 + ((1 : ℕ) : ℝ) • e1 ≠ 0
        ∧ vnorm (mergeCentroid e1 1 e1 1) = 1)
    ∧ (([e1] : List (Vec 1)) ≠ [] ∧ ([e1] : List (Vec 1)).foldr (· + ·) 0 ≠ 0
        ∧ vnorm (recomputeCentroid [e1]) = 1) := by
  have he : vnorm e1 ≠ 0 := by rw [vnorm_e1]; norm_num
  have he1 : vnorm e1 = 1 := vnorm_e1
  have hd : cosineDistance e1 e1 < 2 := by
    unfold cosineDistance
    rw [if_neg]
    · have hdot : dot e1 e1 = 1 := by
        unfold dot e1
        rw [Fin.sum_univ_one]
        norm_num
      rw [hdot, vnorm_e1]
      norm_num
    · rw [vnorm_e1]
      norm_num
  have hsum : ((1 : ℕ) : ℝ) • e1 + ((1 : ℕ) : ℝ) • e1 ≠ 0 := by
    intro h
    have := congrFun h 0
    simp [e1] at this
  have hfold : ([e1] : List (Vec 1)).foldr (· + ·) 0 ≠ 0 := by
    intro h
    have := congrFun h 0
    simp [e1, List.foldr] at this
  refine ⟨⟨he, (C3_centroid_normalization (n := 1)).1 e1 he⟩,
          ⟨he1, hd, (C3_centroid_normalization (n := 1)).2.1 e1 e1 1 he1 he1 hd⟩,
          ⟨by norm_num, hsum, (C3_centroid_normalization (n := 1)).2.2.1 e1 e1 1 1 (by norm_num) hsum⟩,
          ⟨by simp, hfold, (C3_centroid_normalization (n := 1)).2.2.2 [e1] (by simp) hfold⟩⟩

/-- C10: `cosine_distance` is exactly 2 when either norm is zero, otherwise
`1 -` the clamped cosine similarity, always in `[0, 2]`; hence
`assign_person` on the all-zero embedding matches nobody (distance 2 is
never `<` a threshold `≤ 2`) and always creates a new person — whose
stored centroid is the zero vector, since the normalization is skipped.
(`cluster.py:18-32`, `cluster.py:106-141`.) -/
theorem C10_cosine_distance {n m : ℕ} (a b : Vec n) (t : ℝ)
    (persons : List (PersonR m)) (ht : t ≤ 2) :
    (vnorm a = 0 ∨ vnorm b = 0 → cosineDistance a b = 2)
    ∧ (vnorm a ≠ 0 → vnorm b ≠ 0 →
        cosineDistance a b = 1 - min 1 (max (-1) (dot a b / (vnorm a * vnorm b))))
    ∧ 0 ≤ cosineDistance a b
    ∧ cosineDistance a b ≤ 2
    ∧ assignPerson t (0 : Vec m) persons =
        (persons ++ [⟨maxPersonId persons + 1,
                      "Person_" ++ padZeros 3 (maxPersonId persons + 1),
                      0, 1⟩],
         maxPersonId persons + 1) := by
  refine ⟨?_, ?_, cosineDistance_nonneg a b, cosineDistance_le_two a b, ?_⟩
  · intro h
    unfold cosineDistance
    rw [if_pos h]
  · intro ha hb
    unfold cosineDistance
    rw [if_neg (by push_neg; exact ⟨ha, hb⟩)]
  · cases persons with
    | nil =>
        unfold assignPerson createNewPerson findNearest
        rw [normalizeV_zero]
    | cons hd tl =>
        have hall : ∀ q ∈ tl, cosineDistance (0 : Vec m) q.centroid = 2 :=
          fun q _ => cosineDistance_zero_left _
        have hfn : findNearest (0 : Vec m) (hd :: tl) = some (hd, 2) := by
          show some (findNearestGo 0 hd (cosineDistance 0 hd.centroid) tl) = some (hd, 2)
          rw [cosineDistance_zero_left, findNearestGo_const (0 : Vec m) tl hd 2 hall]
        have hnotlt : ¬ (2 : ℝ) < t := not_lt.2 ht
        unfold assignPerson createNewPerson
        simp only [normalizeV_zero, hfn, if_neg hnotlt]

/-- Witness for C10: concrete unit vectors and threshold 0.6 ≤ 2; the zero
embedding creates `Person_002` when `Person_001` exists. -/
theorem C10_cosine_distance_w :
    (0.6 : ℝ) ≤ 2
    ∧ 0 ≤ cosineDistance e1 em1
    ∧ assignPerson 0.6 (0 : Vec 1) [⟨1, "Person_001", e1, 1⟩] =
        ([⟨1, "Person_001", e1, 1⟩,
          ⟨2, "Person_" ++ padZeros 3 2, 0, 1⟩], 2) := by
  have ht : (0.6 : ℝ) ≤ 2 := by norm_num
  have h := C10_cosine_distance e1 em1 0.6 ([⟨1, "Person_001", e1, 1⟩] : List (PersonR 1)) ht
  refine ⟨ht, h.2.2.1, ?_⟩
  have h5 := h.2.2.2.2
  have hmax : maxPersonId ([⟨1, "Person_001", e1, 1⟩] : List (PersonR 1)) = 1 := by
    unfold maxPersonId
    simp
  rw [hmax] at h5
  simpa using h5

/-! ## Phase coordinator (`phase.py`) -/

inductive Phase where
  | processing
  | uploading
deriving DecidableEq, Repr

/-- The coordinator's observable state (`phase.py:51-69`): phase, batch
counter, batch size, completed-batch count, and the two `threading.Event`
flags workers and the uploader wait on. -/
structure CoordState where
  phase : Phase
  inBatch : ℕ
  batchSize : ℕ
  batchesDone : ℕ
  processingAllowed : Bool
  uploadingAllowed : Bool
deriving DecidableEq, Repr

/-- `PhaseCoordinator.__init__` (`phase.py:51-64`): PROCESSING, empty batch,
processing allowed, uploading disallowed. -/
def initCoord (bs : ℕ) : CoordState :=
  ⟨Phase.processing, 0, bs, 0, true, false⟩

/-- `_switch_to_uploading` (`phase.py:115-133`): no-op when already
UPLOADING, otherwise flip the phase, pause workers, signal the uploader. -/
def switchToUploading (s : CoordState) : CoordState :=
  if s.phase = Phase.uploading then s
  else { s with phase := Phase.uploading,
                processingAllowed := false,
                uploadingAllowed := true }

/-- `on_photo_processed` (`phase.py:102-113`): increment the batch counter,
switch to UPLOADING when it reaches the batch size. -/
def onPhotoProcessed (s : CoordState) : CoordState :=
  let s1 := { s with inBatch := s.inBatch + 1 }
  if s1.inBatch ≥ s1.batchSize then switchToUploading s1 else s1

/-- `flush_if_needed` (`phase.py:148-173`): force the switch when idle with
a non-empty partial batch, only from PROCESSING. -/
def flushIfNeeded (s : CoordState) : CoordState :=
  if s.phase ≠ Phase.processing then s
  else if s.inBatch = 0 then s
  else switchToUploading s

/-- `on_uploads_complete` (`phase.py:175-195`): reset the counter, count the
batch, return to PROCESSING, resume workers, pause the uploader. -/
def onUploadsComplete (s : CoordState) : CoordState :=
  { s with batchesDone := s.batchesDone + 1,
           inBatch := 0,
           phase := Phase.processing,
           uploadingAllowed := false,
           processingAllowed := true }

inductive CoordEvent where
  | photoProcessed
  | flush
  | uploadsComplete
deriving DecidableEq, Repr

def coordStep (s : CoordState) : CoordEvent → CoordState
  | CoordEvent.photoProcessed => onPhotoProcessed s
  | CoordEvent.flush => flushIfNeeded s
  | CoordEvent.uploadsComplete => onUploadsComplete s

/-- All states reachable from start-up by any call sequence. -/
def runCoord (bs : ℕ) (evs : List CoordEvent) : CoordState :=
  evs.foldl coordStep (initCoord bs)

/-- The phase/flag correspondence of C5. -/
def CoordInv (s : CoordState) : Prop :=
  (s.phase = Phase.processing ↔ (s.processingAllowed = true ∧ s.uploadingAllowed = false))
  ∧ (s.phase = Phase.uploading ↔ (s.processingAllowed = false ∧ s.uploadingAllowed = true))

theorem coordStep_inv (s : CoordState) (e : CoordEvent) (h : CoordInv s) :
    CoordInv (coordStep s e) := by
  obtain ⟨h1, h2⟩ := h
  cases e with
  | photoProcessed =>
      unfold coordStep onPhotoProcessed switchToUploading
      dsimp only
      split
      · split
        · exact ⟨h1, h2⟩
        · constructor
          · constructor
            · intro hp; exact absurd hp (by simp)
            · intro ⟨hp, _⟩; simp at hp
          · constructor
            · intro _; exact ⟨rfl, rfl⟩
            · intro _; rfl
      · exact ⟨h1, h2⟩
  | flush =>
      unfold coordStep flushIfNeeded switchToUploading
      dsimp only
      split
      · exact ⟨h1, h2⟩
      · split
        · exact ⟨h1, h2⟩
        · split
          · exact ⟨h1, h2⟩
          · constructor
            · constructor
              · intro hp; exact absurd hp (by simp)
              · intro ⟨hp, _⟩; simp at hp
            · constructor
              · intro _; exact ⟨rfl, rfl⟩
              · intro _; rfl
  | uploadsComplete =>
      unfold coordStep onUploadsComplete
      constructor
      · constructor
        · intro _; exact ⟨rfl, rfl⟩
        · intro _; rfl
      · constructor
        · intro hp; exact absurd hp (by simp)
        · intro ⟨hp, _⟩; simp at hp

theorem coordFoldl_inv (evs : List CoordEvent) :
    ∀ s : CoordState, CoordInv s → CoordInv (evs.foldl coordStep s) := by
  induction evs with
  | nil => intro s h; exact h
  | cons e es ih =>
      intro s h
      rw [List.foldl_cons]
      exact ih _ (coordStep_inv s e h)

theorem runCoord_inv (bs : ℕ) (evs : List CoordEvent) : CoordInv (runCoord bs evs) := by
  have hinit : CoordInv (initCoord bs) := by
    constructor
    · constructor
      · intro _; exact ⟨rfl, rfl⟩
      · intro _; rfl
    · constructor
      · intro hp; exact absurd hp (by simp [initCoord])
      · intro ⟨hp, _⟩; simp [initCoord] at hp
  exact coordFoldl_inv evs _ hinit

/-- C5: the coordinator state machine starts in PROCESSING with processing
allowed and uploading disallowed; every call sequence of
`on_photo_processed` / `flush_if_needed` / `on_uploads_complete` preserves
"phase = PROCESSING iff workers allowed and uploader blocked, and
conversely for UPLOADING"; from PROCESSING, `on_photo_processed` switches
to UPLOADING exactly when the incremented counter reaches the batch size;
`on_uploads_complete` zeroes the counter, counts the batch and returns to
PROCESSING.  (`phase.py:51-195`.) -/
theorem C5_phase_coordinator (bs : ℕ) (evs : List CoordEvent) (s : CoordState) :
    initCoord bs = ⟨Phase.processing, 0, bs, 0, true, false⟩
    ∧ CoordInv (runCoord bs evs)
    ∧ (s.phase = Phase.processing →
        ((coordStep s CoordEvent.photoProcessed).phase = Phase.uploading
          ↔ s.inBatch + 1 ≥ s.batchSize))
    ∧ (coordStep s CoordEvent.uploadsComplete).inBatch = 0
    ∧ (coordStep s CoordEvent.uploadsComplete).batchesDone = s.batchesDone + 1
    ∧ (coordStep s CoordEvent.uploadsComplete).phase = Phase.processing
    ∧ (coordStep s CoordEvent.uploadsComplete).processingAllowed = true
    ∧ (coordStep s CoordEvent.uploadsComplete).uploadingAllowed = false := by
  refine ⟨rfl, runCoord_inv bs evs, ?_, rfl, rfl, rfl, rfl, rfl⟩
  intro hp
  unfold coordStep onPhotoProcessed switchToUploading
  dsimp only
  constructor
  · intro h
    by_contra hge
    rw [if_neg hge] at h
    rw [hp] at h
    exact Phase.noConfusion h
  · intro hge
    rw [if_pos hge]
    have : ¬ ({ s with inBatch := s.inBatch + 1 } : CoordState).phase = Phase.uploading := by
      dsimp only
      rw [hp]
      intro h
      exact Phase.noConfusion h
    rw [if_neg this]

/-- Witness for C5: batch size 2, the sequence "two photos processed, then
uploads complete"; the invariant holds and the transition facts evaluate at
a concrete PROCESSING state. -/
theorem C5_phase_coordinator_w :
    (⟨Phase.processing, 1, 2, 0, true, false⟩ : CoordState).phase = Phase.processing
    ∧ ((coordStep ⟨Phase.processing, 1, 2, 0, true, false⟩ CoordEvent.photoProcessed).phase
         = Phase.uploading ↔ 1 + 1 ≥ 2)
    ∧ CoordInv (runCoord 2
        [CoordEvent.photoProcessed, CoordEvent.photoProcessed, CoordEvent.uploadsComplete]) := by
  have hp : (⟨Phase.processing, 1, 2, 0, true, false⟩ : CoordState).phase = Phase.processing := rfl
  have h := C5_phase_coordinator 2
    [CoordEvent.photoProcessed, CoordEvent.photoProcessed, CoordEvent.uploadsComplete]
    ⟨Phase.processing, 1, 2, 0, true, false⟩
  exact ⟨hp, h.2.2.1 hp, h.2.1⟩

/-! ## Upload queue rename propagation (`db.py:794-814`) -/

/-- Literal "the first list starts the second" check on characters. -/
def isPre : List Char → List Char → Bool
  | [], _ => true
  | _ :: _, [] => false
  | p :: ps, c :: cs => p == c && isPre ps cs

/-- Literal substring occurrence (the character-level meaning of
"`local_path` contains the old folder name"). -/
def hasOccur (pat : List Char) : List Char → Bool
  | [] => isPre pat []
  | c :: cs => isPre pat (c :: cs) || hasOccur pat cs

/-- Fuel-indexed SQLite `REPLACE`: scan left to right, replace each literal
non-overlapping occurrence, continue after the replacement.  Every step
consumes at least one input character, so fuel `s.length` suffices. -/
def replaceF (pat rep : List Char) : ℕ → List Char → List Char
  | 0, s => s
  | _ + 1, [] => []
  | f + 1, c :: cs =>
      if isPre pat (c :: cs) then rep ++ replaceF pat rep f (cs.drop (pat.length - 1))
      else c :: replaceF pat rep f cs

/-- SQLite `REPLACE(s, pat, rep)`; with an empty pattern it returns the
input unchanged, as SQLite does. -/
def replaceChars (pat rep s : List Char) : List Char :=
  if pat.isEmpty then s else replaceF pat rep s.length s

/-- SQLite's default ASCII-only case folding for `LIKE`. -/
def asciiFold (c : Char) : Char := if c.isUpper then c.toLower else c

/-- SQLite `LIKE` matching: `%` matches any sequence, `_` any single
character, other characters ASCII-case-insensitively. -/
def likeMatch : List Char → List Char → Bool
  | [], s => s.isEmpty
  | p :: ps, s =>
      if p = '%' then
        likeMatch ps s ||
          (match s with
           | [] => false
           | _ :: cs => likeMatch (p :: ps) cs)
      else
        match s with
        | [] => false
        | c :: cs =>
            if p = '_' then likeMatch ps cs
            else (asciiFold p == asciiFold c) && likeMatch ps cs
termination_by pat s => (pat.length, s.length)

/-- The pattern `'%' || old || '%'` built by `update_upload_paths`. -/
def likePat (old : String) : List Char := '%' :: (old.data ++ ['%'])

def strReplace (s pat rep : String) : String := String.mk (replaceChars pat.data rep.data s.data)

def strHasOccur (s pat : String) : Bool := hasOccur pat.data s.data

theorem replaceF_no_occur (pat rep : List Char) :
    ∀ (f : ℕ) (s : List Char), hasOccur pat s = false → replaceF pat rep f s = s := by
  intro f
  induction f with
  | zero => intro s _; rfl
  | succ f ih =>
      intro s hs
      cases s with
      | nil => rfl
      | cons c cs =>
          unfold hasOccur at hs
          rw [Bool.or_eq_false_iff] at hs
          unfold replaceF
          rw [if_neg (by rw [hs.1]; exact Bool.false_ne_true)]
          rw [ih cs hs.2]

theorem replaceChars_no_occur (pat rep s : List Char) (h : hasOccur pat s = false) :
    replaceChars pat rep s = s := by
  unfold replaceChars
  split
  · rfl
  · exact replaceF_no_occur pat rep s.length s h

theorem likeMatch_pct (s : List Char) : likeMatch ['%'] s = true := by
  induction s with
  | nil => simp [likeMatch]
  | cons c cs ih =>
      unfold likeMatch
      rw [if_pos rfl]
      rw [Bool.or_eq_true]
      right
      exact ih

theorem likeMatch_of_isPre (pat : List Char) :
    ∀ s, isPre pat s = true → likeMatch (pat ++ ['%']) s = true := by
  induction pat with
  | nil => intro s _; exact likeMatch_pct s
  | cons p ps ih =>
      intro s hs
      cases s with
      | nil => exact absurd hs (by simp [isPre])
      | cons c cs =>
          unfold isPre at hs
          rw [Bool.and_eq_true] at hs
          have hc : c = p := (beq_iff_eq.1 hs.1).symm
          by_cases hp : p = '%'
          · show likeMatch (p :: (ps ++ ['%'])) (c :: cs) = true
            unfold likeMatch
            rw [if_pos hp, Bool.or_eq_true]
            right
            show likeMatch (p :: (ps ++ ['%'])) cs = true
            unfold likeMatch
            rw [if_pos hp, Bool.or_eq_true]
            left
            exact ih cs hs.2
          · show likeMatch (p :: (ps ++ ['%'])) (c :: cs) = true
            unfold likeMatch
            rw [if_neg hp]
            show (if p = '_' then likeMatch (ps ++ ['%']) cs
                  else asciiFold p == asciiFold c && likeMatch (ps ++ ['%']) cs) = true
            by_cases hu : p = '_'
            · rw [if_pos hu]
              exact ih cs hs.2
            · rw [if_neg hu]
              rw [Bool.and_eq_true]
              exact ⟨by rw [hc]; exact beq_self_eq_true _, ih cs hs.2⟩

theorem likeMatch_of_hasOccur (pat : List Char) :
    ∀ s, hasOccur pat s = true → likeMatch ('%' :: (pat ++ ['%'])) s = true := by
  intro s
  induction s with
  | nil =>
      intro h
      unfold hasOccur at h
      cases pat with
      | nil => simp [likeMatch]
      | cons p ps => exact absurd h (by simp [isPre])
  | cons c cs ih =>
      intro h
      unfold hasOccur at h
      rw [Bool.or_eq_true] at h
      show likeMatch ('%' :: (pat ++ ['%'])) (c :: cs) = true
      unfold likeMatch
      rw [if_pos rfl, Bool.or_eq_true]
      rcases h with h | h
      · left
        exact likeMatch_of_isPre pat (c :: cs) h
      · right
        exact ih h

inductive UStatus where
  | pending
  | uploading
  | completed
  | failed
deriving DecidableEq, Repr

/-- One `upload_queue` row (`db.py` schema). -/
structure UploadJob where
  id : ℕ
  photoId : ℕ
  localPath : String
  relativeTo : String
  status : UStatus
  retryCount : ℕ
  lastError : Option String
  createdAt : ℕ
  updatedAt : ℕ
deriving DecidableEq, Repr

/-- The per-row effect of `update_upload_paths` (`db.py:794-814`):
`UPDATE upload_queue SET local_path = REPLACE(local_path, old, new),
updated_at = now WHERE status IN ('pending','failed') AND local_path LIKE
'%old%'`. -/
def uploadRewrite (oldName newName : String) (now : ℕ) (j : UploadJob) : UploadJob :=
  if (j.status = UStatus.pending ∨ j.status = UStatus.failed)
      ∧ likeMatch (likePat oldName) j.localPath.data = true then
    { j with localPath := strReplace j.localPath oldName newName, updatedAt := now }
  else j

/-- `update_upload_paths` over the whole table. -/
def updateUploadPaths (oldName newName : String) (now : ℕ) (jobs : List UploadJob) :
    List UploadJob :=
  jobs.map (uploadRewrite oldName newName now)

/-- C6: rename propagation rewrites `local_path` (replacing the old folder
name) exactly in the `pending`/`failed` rows whose `local_path` contains
the old folder name, setting their `updated_at`; `completed` and
`uploading` rows are untouched, and every other field of a rewritten row is
preserved.  (`db.py:794-814`, called from `rename_person_folder`,
`enrollment.py:139-145`.) -/
theorem C6_rename_propagation (oldName newName : String) (now : ℕ)
    (jobs : List UploadJob) (j : UploadJob) :
    updateUploadPaths oldName newName now jobs = jobs.map (uploadRewrite oldName newName now)
    ∧ ((j.status = UStatus.completed ∨ j.status = UStatus.uploading) →
        uploadRewrite oldName newName now j = j)
    ∧ ((j.status = UStatus.pending ∨ j.status = UStatus.failed) →
        strHasOccur j.localPath oldName = true →
        uploadRewrite oldName newName now j =
          { j with localPath := strReplace j.localPath oldName newName, updatedAt := now })
    ∧ ((uploadRewrite oldName newName now j).localPath ≠ j.localPath →
        (j.status = UStatus.pending ∨ j.status = UStatus.failed)
        ∧ strHasOccur j.localPath oldName = true) := by
  refine ⟨rfl, ?_, ?_, ?_⟩
  · intro h
    unfold uploadRewrite
    rw [if_neg]
    intro ⟨hs, _⟩
    rcases h with h | h <;> rcases hs with hs | hs <;> rw [h] at hs <;> exact UStatus.noConfusion hs
  · intro hs hocc
    unfold uploadRewrite
    rw [if_pos]
    exact ⟨hs, likeMatch_of_hasOccur oldName.data j.localPath.data hocc⟩
  · intro hne
    by_cases hc : (j.status = UStatus.pending ∨ j.status = UStatus.failed)
        ∧ likeMatch (likePat oldName) j.localPath.data = true
    · refine ⟨hc.1, ?_⟩
      by_contra hno
      rw [Bool.not_eq_true] at hno
      apply hne
      unfold uploadRewrite
      rw [if_pos hc]
      show strReplace j.localPath oldName newName = j.localPath
      unfold strReplace
      rw [replaceChars_no_occur _ _ _ hno]
    · exact absurd (by unfold uploadRewrite; rw [if_neg hc]) hne

/-- Witness for C6 at scenario S4's data: a pending upload under
`People/Person_003/` is rewritten to `People/Jane_Doe/`, `updated_at` is
set, and the concrete replacement string is computed. -/
theorem C6_rename_propagation_w :
    ((UStatus.pending = UStatus.pending ∨ UStatus.pending = UStatus.failed)
      ∧ strHasOccur "People/Person_003/Solo/000001.jpg" "Person_003" = true)
    ∧ uploadRewrite "Person_003" "Jane_Doe" 7
        ⟨1, 1, "People/Person_003/Solo/000001.jpg", "event", UStatus.pending, 0, none, 0, 0⟩ =
        ⟨1, 1, strReplace "People/Person_003/Solo/000001.jpg" "Person_003" "Jane_Doe",
         "event", UStatus.pending, 0, none, 0, 7⟩
    ∧ strReplace "People/Person_003/Solo/000001.jpg" "Person_003" "Jane_Doe"
        = "People/Jane_Doe/Solo/000001.jpg" := by
  have hs : (UStatus.pending = UStatus.pending ∨ UStatus.pending = UStatus.failed) :=
    Or.inl rfl
  have hocc : strHasOccur "People/Person_003/Solo/000001.jpg" "Person_003" = true := by decide
  exact ⟨⟨hs, hocc⟩,
         (C6_rename_propagation "Person_003" "Jane_Doe" 7 []
            ⟨1, 1, "People/Person_003/Solo/000001.jpg", "event", UStatus.pending, 0, none, 0, 0⟩
          ).2.2.1 hs hocc,
         by decide⟩

/-! ## Start-up recovery (`db.py:241-355`) -/

inductive PStatus where
  | pending
  | processing
  | completed
  | error
  | noFaces
deriving DecidableEq, Repr

structure PhotoRow where
  id : ℕ
  status : PStatus
deriving DecidableEq, Repr

structure FaceRow (n : ℕ) where
  id : ℕ
  photoId : ℕ
  personId : Option ℕ
  embedding : Vec n

/-- The durable state the recovery pass touches. -/
structure DBState (n : ℕ) where
  photos : List PhotoRow
  faces : List (FaceRow n)
  persons : List (PersonR n)

/-- `SELECT id FROM photos WHERE status = 'processing'` (`db.py:252-255`). -/
def stuckIds {n : ℕ} (db : DBState n) : List ℕ :=
  (db.photos.filter fun ph => ph.status == PStatus.processing).map (·.id)

/-- `SELECT DISTINCT p.id FROM photos p INNER JOIN faces f ON f.photo_id =
p.id WHERE p.status = 'pending'` (`db.py:259-262`). -/
def orphanIds {n : ℕ} (db : DBState n) : List ℕ :=
  (db.photos.filter fun ph =>
      ph.status == PStatus.pending && db.faces.any fun f => f.photoId == ph.id).map (·.id)

/-- `SELECT DISTINCT person_id FROM faces WHERE photo_id IN ids AND
person_id IS NOT NULL` (`db.py:296-301`). -/
def affectedPersonIds {n : ℕ} (ids : List ℕ) (db : DBState n) : List ℕ :=
  ((db.faces.filter fun f => ids.contains f.photoId && f.personId.isSome).filterMap
      (·.personId)).dedup

/-- The faces table after `DELETE FROM faces WHERE photo_id IN ids`
(`db.py:313-318`). -/
def survivorFaces {n : ℕ} (ids : List ℕ) (db : DBState n) : List (FaceRow n) :=
  db.faces.filter fun f => !(ids.contains f.photoId)

/-- The per-person loop of `_cleanup_orphaned_faces` (`db.py:322-355`):
recount each affected person against the post-delete faces table; delete
persons with no remaining faces, otherwise store the renormalized mean of
the surviving embeddings and the recount. -/
noncomputable def recomputePersons {n : ℕ} (faces' : List (FaceRow n)) :
    List ℕ → List (PersonR n) → List (PersonR n)
  | [], ps => ps
  | pid :: rest, ps =>
      let actual := (faces'.filter fun f => f.personId == some pid).length
      let ps' :=
        if actual = 0 then ps.filter fun p => p.id != pid
        else ps.map fun p =>
          if p.id = pid then
            { p with
              centroid :=
                recomputeCentroid ((faces'.filter fun f => f.personId == some pid).map (·.embedding)),
              face_count := actual }
          else p
      recomputePersons faces' rest ps'

/-- `_cleanup_orphaned_faces` (`db.py:284-355`): no-op when the given
photos carry no faces, otherwise delete their faces and recompute or delete
the affected persons. -/
noncomputable def cleanupOrphanedFaces {n : ℕ} (ids : List ℕ) (db : DBState n) : DBState n :=
  if (db.faces.filter fun f => ids.contains f.photoId).length = 0 then db
  else
    { db with faces := survivorFaces ids db,
              persons := recomputePersons (survivorFaces ids db)
                (affectedPersonIds ids db) db.persons }

/-- `_reset_stuck_processing` (`db.py:241-282`): with no stuck photos,
clean up pending photos that still carry faces; otherwise clean up the
stuck photos' faces and reset those photos to `pending`. -/
noncomputable def resetStuckProcessing {n : ℕ} (db : DBState n) : DBState n :=
  if (stuckIds db).isEmpty then
    if (orphanIds db).isEmpty then db
    else cleanupOrphanedFaces (orphanIds db) db
  else
    let db' := cleanupOrphanedFaces (stuckIds db) db
    { db' with photos := db'.photos.map fun ph =>
        if (stuckIds db).contains ph.id then { ph with status := PStatus.pending } else ph }

theorem cleanup_photos_frame {n : ℕ} (ids : List ℕ) (db : DBState n) :
    (cleanupOrphanedFaces ids db).photos = db.photos := by
  unfold cleanupOrphanedFaces
  split <;> rfl

theorem cleanup_faces_spec {n : ℕ} (ids : List ℕ) (db : DBState n) :
    ∀ f ∈ (cleanupOrphanedFaces ids db).faces,
      f ∈ db.faces ∧ ids.contains f.photoId = false := by
  intro f hf
  unfold cleanupOrphanedFaces at hf
  by_cases h0 : (db.faces.filter fun f => ids.contains f.photoId).length = 0
  · rw [if_pos h0] at hf
    have hnil : db.faces.filter (fun f => ids.contains f.photoId) = [] :=
      List.length_eq_zero.1 h0
    have := List.filter_eq_nil_iff.1 hnil f hf
    exact ⟨hf, Bool.not_eq_true _ ▸ (by simpa using this)⟩
  · rw [if_neg h0] at hf
    have hf' : f ∈ survivorFaces ids db := hf
    unfold survivorFaces at hf'
    have := List.mem_filter.1 hf'
    refine ⟨this.1, ?_⟩
    have hneg := this.2
    cases hcf : ids.contains f.photoId with
    | false => rfl
    | true => rw [hcf] at hneg; exact absurd hneg (by simp)

theorem contains_true_of_mem {a : ℕ} {l : List ℕ} (h : a ∈ l) : l.contains a = true := by
  rw [List.contains]
  exact List.elem_iff.2 h

theorem mem_of_contains_true {a : ℕ} {l : List ℕ} (h : l.contains a = true) : a ∈ l := by
  rw [List.contains] at h
  exact List.elem_iff.1 h

/-- A state the recovery pass leaves alone: nothing stuck in `processing`
and no `pending` photo carrying faces. -/
theorem reset_fixed {n : ℕ} (db : DBState n)
    (h1 : ∀ ph ∈ db.photos, ph.status ≠ PStatus.processing)
    (h2 : ∀ ph ∈ db.photos, ph.status = PStatus.pending →
            ∀ f ∈ db.faces, f.photoId ≠ ph.id) :
    resetStuckProcessing db = db := by
  have hstuck : stuckIds db = [] := by
    unfold stuckIds
    rw [List.filter_eq_nil_iff.2 (fun ph hph => by
      simp only [beq_iff_eq]
      exact h1 ph hph)]
    rfl
  have horph : orphanIds db = [] := by
    unfold orphanIds
    rw [List.filter_eq_nil_iff.2 (fun ph hph => ?_)]
    · rfl
    · rw [Bool.and_eq_true]
      intro ⟨hpend, hany⟩
      obtain ⟨f, hfmem, hfid⟩ := List.any_eq_true.1 hany
      exact h2 ph hph (beq_iff_eq.1 hpend) f hfmem (beq_iff_eq.1 hfid)
  unfold resetStuckProcessing
  rw [hstuck, horph]
  rfl

/-- C2 (amended): the recovery pass is idempotent on every state in which
stuck `processing` photos and orphaned `pending` faces do not occur
together — in particular whenever no photo is `processing`, or whenever no
`pending` photo carries faces.  (Without that proviso the first run, busy
with the stuck photos, skips the orphaned-pending cleanup and the second
run performs it; see the counterexample.) -/
theorem C2_recovery_idempotent {n : ℕ} (db : DBState n)
    (h : (∀ ph ∈ db.photos, ph.status ≠ PStatus.processing)
         ∨ (∀ ph ∈ db.photos, ph.status = PStatus.pending →
              ∀ f ∈ db.faces, f.photoId ≠ ph.id)) :
    resetStuckProcessing (resetStuckProcessing db) = resetStuckProcessing db := by
  by_cases hstuck : (stuckIds db).isEmpty = true
  · -- no stuck photos
    have h1 : ∀ ph ∈ db.photos, ph.status ≠ PStatus.processing := by
      intro ph hph hps
      have : ph.id ∈ stuckIds db := by
        unfold stuckIds
        exact List.mem_map.2 ⟨ph, List.mem_filter.2 ⟨hph, beq_iff_eq.2 hps⟩, rfl⟩
      rw [List.isEmpty_iff.1 hstuck] at this
      exact absurd this (List.not_mem_nil _)
    by_cases horph : (orphanIds db).isEmpty = true
    · have hfix : resetStuckProcessing db = db := by
        unfold resetStuckProcessing
        rw [if_pos hstuck, if_pos horph]
      rw [hfix, hfix]
    · have hr : resetStuckProcessing db = cleanupOrphanedFaces (orphanIds db) db := by
        unfold resetStuckProcessing
        rw [if_pos hstuck, if_neg horph]
      rw [hr]
      apply reset_fixed
      · rw [cleanup_photos_frame]
        exact h1
      · rw [cleanup_photos_frame]
        intro ph hph hpend f hf hid
        obtain ⟨hforig, hfnc⟩ := cleanup_faces_spec (orphanIds db) db f hf
        have : ph.id ∈ orphanIds db := by
          unfold orphanIds
          refine List.mem_map.2 ⟨ph, List.mem_filter.2 ⟨hph, ?_⟩, rfl⟩
          rw [Bool.and_eq_true]
          exact ⟨beq_iff_eq.2 hpend,
                 List.any_eq_true.2 ⟨f, hforig, beq_iff_eq.2 hid⟩⟩
        rw [hid] at hfnc
        rw [contains_true_of_mem this] at hfnc
        exact Bool.true_eq_false ▸ hfnc ▸ rfl
  · -- some photos are stuck; the hypothesis rules out pending orphans
    have h2 : ∀ ph ∈ db.photos, ph.status = PStatus.pending →
        ∀ f ∈ db.faces, f.photoId ≠ ph.id := by
      rcases h with h | h
      · exfalso
        apply hstuck
        rw [List.isEmpty_iff]
        unfold stuckIds
        rw [List.filter_eq_nil_iff.2 (fun ph hph => by
          simp only [beq_iff_eq]
          exact h ph hph)]
        rfl
      · exact h
    have hr : resetStuckProcessing db =
        { cleanupOrphanedFaces (stuckIds db) db with
          photos := (cleanupOrphanedFaces (stuckIds db) db).photos.map fun ph =>
            if (stuckIds db).contains ph.id then { ph with status := PStatus.pending }
            else ph } := by
      unfold resetStuckProcessing
      rw [if_neg hstuck]
    rw [hr]
    apply reset_fixed
    · -- every formerly stuck photo is now pending, nothing else was processing
      intro ph' hph'
      simp only [cleanup_photos_frame] at hph'
      obtain ⟨ph, hph, hmap⟩ := List.mem_map.1 hph'
      by_cases hin : (stuckIds db).contains ph.id = true
      · rw [if_pos hin] at hmap
        rw [← hmap]
        intro hcontr
        exact PStatus.noConfusion hcontr
      · rw [if_neg (by simpa using hin)] at hmap
        rw [← hmap]
        intro hps
        apply hin
        apply contains_true_of_mem
        unfold stuckIds
        exact List.mem_map.2 ⟨ph, List.mem_filter.2 ⟨hph, beq_iff_eq.2 hps⟩, rfl⟩
    · -- no pending photo of the new state still carries a face
      intro ph' hph' hpend f hf hid
      obtain ⟨hforig, hfnc⟩ := cleanup_faces_spec (stuckIds db) db f hf
      simp only [cleanup_photos_frame] at hph'
      obtain ⟨ph, hph, hmap⟩ := List.mem_map.1 hph'
      by_cases hin : (stuckIds db).contains ph.id = true
      · rw [if_pos hin] at hmap
        have hids : ph'.id = ph.id := by rw [← hmap]
        rw [hids] at hid
        rw [hid, hin] at hfnc
        exact Bool.noConfusion hfnc
      · rw [if_neg (by simpa using hin)] at hmap
        rw [← hmap] at hpend hid
        exact h2 ph hph hpend f hforig hid

/-- A state with an orphaned pending face but nothing stuck in
`processing`, used to witness the amended C2. -/
noncomputable def wDB : DBState 1 :=
  ⟨[⟨1, PStatus.pending⟩], [⟨1, 1, none, 0⟩], []⟩

/-- Witness for the amended C2: on `wDB` the proviso holds (no photo is
`processing`) and recovery is idempotent. -/
theorem C2_recovery_idempotent_w :
    (∀ ph ∈ wDB.photos, ph.status ≠ PStatus.processing)
    ∧ resetStuckProcessing (resetStuckProcessing wDB) = resetStuckProcessing wDB := by
  have hp : ∀ ph ∈ wDB.photos, ph.status ≠ PStatus.processing := by
    intro ph hph
    have : ph = ⟨1, PStatus.pending⟩ := List.mem_singleton.1 hph
    rw [this]
    intro h
    exact PStatus.noConfusion h
  exact ⟨hp, C2_recovery_idempotent wDB (Or.inl hp)⟩

/-- Concrete state refuting C2 as stated: photo 1 stuck in `processing`,
photo 2 `pending` but still carrying a face row. -/
noncomputable def cexDB : DBState 1 :=
  ⟨[⟨1, PStatus.processing⟩, ⟨2, PStatus.pending⟩], [⟨1, 2, none, 0⟩], []⟩

/-- C2 counterexample: on `cexDB` the first recovery run resets photo 1 and
(being busy with stuck photos) leaves photo 2's orphaned face in place; the
second run deletes that face, so running recovery twice differs from
running it once. -/
theorem C2_recovery_idempotent_cex :
    resetStuckProcessing (resetStuckProcessing cexDB) ≠ resetStuckProcessing cexDB := by
  have h1 : resetStuckProcessing cexDB =
      ⟨[⟨1, PStatus.pending⟩, ⟨2, PStatus.pending⟩], [⟨1, 2, none, 0⟩], []⟩ := by
    rfl
  have h2 : resetStuckProcessing
      (⟨[⟨1, PStatus.pending⟩, ⟨2, PStatus.pending⟩], [⟨1, 2, none, 0⟩], []⟩ : DBState 1) =
      ⟨[⟨1, PStatus.pending⟩, ⟨2, PStatus.pending⟩], [], []⟩ := by
    rfl
  rw [h1, h2]
  intro h
  have := congrArg (fun s : DBState 1 => s.faces.length) h
  simp at this

/-! ## Router (`router.py`) -/

/-- The local file tree as a finite map, path string to file content. -/
def FS : Type := List (String × String)

/-- `copy_or_link` (`router.py:78-121`) with `dry_run = False`: an existing
destination is treated as already routed (success without writing); a
hardlink and a full copy have the same effect on the tree; a missing source
raises, which is caught and reported as failure. -/
def copyOrLink (src dst : String) (fs : FS) : FS × Bool :=
  match fs.lookup dst with
  | some _ => (fs, true)
  | none =>
      match fs.lookup src with
      | some content => ((dst, content) :: fs, true)
      | none => (fs, false)

/-- `src.name`: the last path component. -/
def baseName (s : String) : String :=
  ((s.split fun c => c == '/').getLast?).getD s

/-- `(Path.stem, Path.suffix)` of a file name: split at the last dot. -/
def extSplit (name : String) : String × String :=
  let cs := name.data
  match cs.reverse.findIdx? (· == '.') with
  | none => (name, "")
  | some i =>
      let pos := cs.length - i - 1
      (String.mk (cs.take pos), String.mk (cs.drop pos))

/-- `f"{base}_{counter}{ext}"` under the destination folder. -/
def candDst (folder stem ext : String) (k : ℕ) : String :=
  folder ++ "/" ++ (stem ++ "_" ++ toString k ++ ext)

/-- The duplicate-avoiding counter loop of `move_to_folder`
(`router.py:136-142`); the tree is finite so `fs.length + 1` rounds of fuel
always reach a free name. -/
def freeDst (fs : FS) (folder stem ext : String) : ℕ → ℕ → String
  | 0, k => candDst folder stem ext k
  | fuel + 1, k =>
      if (fs.lookup (candDst folder stem ext k)).isNone then candDst folder stem ext k
      else freeDst fs folder stem ext fuel (k + 1)

/-- `move_to_folder` (`router.py:124-150`) with `dry_run = False`: move the
file under the destination folder, suffixing `_<counter>` while the name is
taken; a missing source raises, caught as failure. -/
def moveToFolder (src dstFolder : String) (fs : FS) : FS × Bool :=
  match fs.lookup src with
  | none => (fs, false)
  | some content =>
      let dst0 := dstFolder ++ "/" ++ baseName src
      let dst :=
        if (fs.lookup dst0).isNone then dst0
        else freeDst fs dstFolder (extSplit (baseName src)).1 (extSplit (baseName src)).2
              (fs.length + 1) 1
      ((dst, content) :: fs.filter fun kv => kv.1 != src, true)

/-- The folder name `ensure_person_folders` uses (`router.py:36-43`): the
person's stored name, or `Person_<id padded to 3>` when the row is gone. -/
def personFolderName {n : ℕ} (persons : List (PersonR n)) (pid : ℕ) : String :=
  match persons.find? fun p => p.id == pid with
  | some p => p.name
  | none => "Person_" ++ padZeros 3 pid

def soloDst (name : String) (photoId : ℕ) : String :=
  "People/" ++ name ++ "/Solo/" ++ padZeros 6 photoId ++ ".jpg"

def groupDst (name : String) (photoId : ℕ) : String :=
  "People/" ++ name ++ "/Group/" ++ padZeros 6 photoId ++ ".jpg"

/-- The group fan-out loop of `route_photo` (`router.py:196-206`). -/
def routeGroup {n : ℕ} (photoId : ℕ) (src : String) (persons : List (PersonR n)) :
    List ℕ → FS → List String → FS × List String
  | [], fs, acc => (fs, acc)
  | pid :: rest, fs, acc =>
      let dst := groupDst (personFolderName persons pid) photoId
      let r := copyOrLink src dst fs
      routeGroup photoId src persons rest r.1 (if r.2 then acc ++ [dst] else acc)

/-- `route_photo` (`router.py:153-213`): distinct person ids; none ⇒ move
to `Admin/NoFaces`; one ⇒ Solo copy; several ⇒ Group copy per person.
Python's `set(person_ids)` becomes `dedup` (iteration order of a Python set
is unspecified; only the produced path set is observable). -/
def routePhoto {n : ℕ} (photoId : ℕ) (processedPath : String) (personIds : List ℕ)
    (persons : List (PersonR n)) (fs : FS) : FS × List String :=
  match personIds.dedup with
  | [] => ((moveToFolder processedPath "Admin/NoFaces" fs).1, [])
  | [pid] =>
      let dst := soloDst (personFolderName persons pid) photoId
      let r := copyOrLink processedPath dst fs
      (r.1, if r.2 then [dst] else [])
  | pids => routeGroup photoId processedPath persons pids fs []

theorem copyOrLink_preserve (src dst : String) (fs : FS) (k : String) (v : String)
    (h : fs.lookup k = some v) : (copyOrLink src dst fs).1.lookup k = some v := by
  unfold copyOrLink
  cases hdst : fs.lookup dst with
  | some d => exact h
  | none =>
      cases hsrc : fs.lookup src with
      | some content =>
          show List.lookup k ((dst, content) :: fs) = some v
          rw [List.lookup_cons]
          by_cases hk : k = dst
          · rw [hk] at h
            rw [h] at hdst
            exact Option.noConfusion hdst
          · rw [beq_false_of_ne hk]
            exact h
      | none => exact h

theorem copyOrLink_frame (src dst : String) (fs : FS) (k : String) (hk : k ≠ dst) :
    (copyOrLink src dst fs).1.lookup k = fs.lookup k := by
  unfold copyOrLink
  cases hdst : fs.lookup dst with
  | some d => rfl
  | none =>
      cases hsrc : fs.lookup src with
      | some content =>
          show List.lookup k ((dst, content) :: fs) = fs.lookup k
          rw [List.lookup_cons]
          rw [beq_false_of_ne hk]
      | none => rfl

theorem copyOrLink_ok_of_src (src dst : String) (fs : FS) (c : String)
    (hsrc : fs.lookup src = some c) : (copyOrLink src dst fs).2 = true := by
  unfold copyOrLink
  cases hdst : fs.lookup dst with
  | some d => rfl
  | none => rw [hsrc]

theorem copyOrLink_sets (src dst : String) (fs : FS) (c : String)
    (hsrc : fs.lookup src = some c) (hdst : fs.lookup dst = none) :
    (copyOrLink src dst fs).1.lookup dst = some c := by
  unfold copyOrLink
  rw [hdst, hsrc]
  show List.lookup dst ((dst, c) :: fs) = some c
  rw [List.lookup_cons]
  rw [beq_self_eq_true dst]

theorem routeGroup_preserve {n : ℕ} (photoId : ℕ) (src : String)
    (persons : List (PersonR n)) (pids : List ℕ) :
    ∀ (fs : FS) (acc : List String) (k v : String), fs.lookup k = some v →
      (routeGroup photoId src persons pids fs acc).1.lookup k = some v := by
  induction pids with
  | nil => intro fs acc k v h; exact h
  | cons pid rest ih =>
      intro fs acc k v h
      unfold routeGroup
      exact ih _ _ k v (copyOrLink_preserve src _ fs k v h)

theorem routeGroup_frame {n : ℕ} (photoId : ℕ) (src : String)
    (persons : List (PersonR n)) (pids : List ℕ) :
    ∀ (fs : FS) (acc : List String) (k : String),
      (∀ q ∈ pids, k ≠ groupDst (personFolderName persons q) photoId) →
      (routeGroup photoId src persons pids fs acc).1.lookup k = fs.lookup k := by
  induction pids with
  | nil => intro fs acc k _; rfl
  | cons pid rest ih =>
      intro fs acc k hk
      unfold routeGroup
      rw [ih _ _ k fun q hq => hk q (List.mem_cons_of_mem _ hq)]
      exact copyOrLink_frame src _ fs k (hk pid (List.mem_cons_self _ _))

theorem routeGroup_routed {n : ℕ} (photoId : ℕ) (src : String)
    (persons : List (PersonR n)) (c : String) (pids : List ℕ) :
    ∀ (fs : FS) (acc : List String), fs.lookup src = some c →
      (routeGroup photoId src persons pids fs acc).2 =
        acc ++ pids.map (fun q => groupDst (personFolderName persons q) photoId)
      ∧ (routeGroup photoId src persons pids fs acc).1.lookup src = some c := by
  induction pids with
  | nil => intro fs acc h; exact ⟨by simp [routeGroup], h⟩
  | cons pid rest ih =>
      intro fs acc h
      have hok := copyOrLink_ok_of_src src
        (groupDst (personFolderName persons pid) photoId) fs c h
      have hsrc' := copyOrLink_preserve src
        (groupDst (personFolderName persons pid) photoId) fs src c h
      obtain ⟨h1, h2⟩ := ih _ (acc ++ [groupDst (personFolderName persons pid) photoId]) hsrc'
      unfold routeGroup
      dsimp only
      rw [hok, if_pos rfl]
      exact ⟨by rw [h1]; simp, h2⟩

theorem routeGroup_dst {n : ℕ} (photoId : ℕ) (src : String)
    (persons : List (PersonR n)) (c : String) (pids : List ℕ) :
    ∀ (fs : FS) (acc : List String), fs.lookup src = some c →
      ∀ q ∈ pids,
        (∀ d, fs.lookup (groupDst (personFolderName persons q) photoId) = some d →
          (routeGroup photoId src persons pids fs acc).1.lookup
            (groupDst (personFolderName persons q) photoId) = some d)
        ∧ (fs.lookup (groupDst (personFolderName persons q) photoId) = none →
          (routeGroup photoId src persons pids fs acc).1.lookup
            (groupDst (personFolderName persons q) photoId) = some c) := by
  induction pids with
  | nil => intro fs acc _ q hq; exact absurd hq (List.not_mem_nil q)
  | cons pid rest ih =>
      intro fs acc hsrc q hq
      have hsrc' := copyOrLink_preserve src
        (groupDst (personFolderName persons pid) photoId) fs src c hsrc
      rcases List.mem_cons.1 hq with hqp | hqr
      · -- q is handled by this step; later steps preserve whatever it set
        subst hqp
        constructor
        · intro d hd
          unfold routeGroup
          apply routeGroup_preserve
          exact copyOrLink_preserve src _ fs _ d hd
        · intro hnone
          unfold routeGroup
          apply routeGroup_preserve
          exact copyOrLink_sets src _ fs c hsrc hnone
      · -- q is handled later; relate its pre-state across this step
        have hih := ih (copyOrLink src (groupDst (personFolderName persons pid) photoId) fs).1
          (if (copyOrLink src (groupDst (personFolderName persons pid) photoId) fs).2
            then acc ++ [groupDst (personFolderName persons pid) photoId] else acc)
          hsrc' q hqr
        constructor
        · intro d hd
          unfold routeGroup
          exact hih.1 d (copyOrLink_preserve src _ fs _ d hd)
        · intro hnone
          unfold routeGroup
          by_cases hsame : groupDst (personFolderName persons q) photoId
              = groupDst (personFolderName persons pid) photoId
          · have hset := copyOrLink_sets src
              (groupDst (personFolderName persons pid) photoId) fs c hsrc (hsame ▸ hnone)
            exact hih.1 c (by rw [hsame]; exact hset)
          · apply hih.2
            rw [copyOrLink_frame src _ fs _ hsame]
            exact hnone

theorem freeDst_shape (fs : FS) (folder stem ext : String) :
    ∀ (fuel k : ℕ), ∃ rest, freeDst fs folder stem ext fuel k = folder ++ "/" ++ rest := by
  intro fuel
  induction fuel with
  | zero => intro k; exact ⟨stem ++ "_" ++ toString k ++ ext, rfl⟩
  | succ fuel ih =>
      intro k
      unfold freeDst
      split
      · exact ⟨stem ++ "_" ++ toString k ++ ext, rfl⟩
      · exact ih (k + 1)

theorem moveToFolder_shape (src folder : String) (fs : FS) (c : String)
    (hsrc : fs.lookup src = some c) :
    ∃ rest, moveToFolder src folder fs
      = ((folder ++ "/" ++ rest, c) :: fs.filter fun kv => kv.1 != src, true) := by
  by_cases h0 : (fs.lookup (folder ++ "/" ++ baseName src)).isNone = true
  · refine ⟨baseName src, ?_⟩
    unfold moveToFolder
    rw [hsrc]
    dsimp only
    rw [if_pos h0]
  · obtain ⟨r, hr⟩ := freeDst_shape fs folder (extSplit (baseName src)).1
      (extSplit (baseName src)).2 (fs.length + 1) 1
    refine ⟨r, ?_⟩
    unfold moveToFolder
    rw [hsrc]
    dsimp only
    rw [if_neg h0, hr]

/-- C4: `route_photo` places files exactly as specified: with no persons
the processed JPEG moves under `Admin/NoFaces` and no per-person file is
created; with one person it lands at `People/<name>/Solo/<id padded to
6>.jpg`; with two or more it lands at `People/<name>/Group/<id padded to
6>.jpg` for each person and nothing outside those destinations changes (in
particular no Solo file); an already-existing destination keeps its old
content and is reported as routed.  (`router.py:78-121`, 153-213.) -/
theorem C4_route_photo {n : ℕ} (photoId : ℕ) (src : String) (personIds : List ℕ)
    (persons : List (PersonR n)) (fs : FS) (c : String)
    (hsrc : fs.lookup src = some c) :
    (personIds.dedup = [] →
       (routePhoto photoId src personIds persons fs).2 = []
       ∧ ∃ rest, (routePhoto photoId src personIds persons fs).1
           = ("Admin/NoFaces" ++ "/" ++ rest, c) :: fs.filter fun kv => kv.1 != src)
    ∧ (∀ pid, personIds.dedup = [pid] →
        (routePhoto photoId src personIds persons fs).2
          = [soloDst (personFolderName persons pid) photoId]
        ∧ (fs.lookup (soloDst (personFolderName persons pid) photoId) = none →
            (routePhoto photoId src personIds persons fs).1
              = (soloDst (personFolderName persons pid) photoId, c) :: fs)
        ∧ (∀ d, fs.lookup (soloDst (personFolderName persons pid) photoId) = some d →
            (routePhoto photoId src personIds persons fs).1 = fs))
    ∧ (∀ pid pid2 rest, personIds.dedup = pid :: pid2 :: rest →
        (routePhoto photoId src personIds persons fs).2
          = (pid :: pid2 :: rest).map fun q => groupDst (personFolderName persons q) photoId)
    ∧ (∀ pid pid2 rest, personIds.dedup = pid :: pid2 :: rest →
        ∀ k, (∀ q ∈ pid :: pid2 :: rest, k ≠ groupDst (personFolderName persons q) photoId) →
          (routePhoto photoId src personIds persons fs).1.lookup k = fs.lookup k)
    ∧ (∀ pid pid2 rest, personIds.dedup = pid :: pid2 :: rest →
        ∀ q ∈ pid :: pid2 :: rest,
          (∀ d, fs.lookup (groupDst (personFolderName persons q) photoId) = some d →
            (routePhoto photoId src personIds persons fs).1.lookup
              (groupDst (personFolderName persons q) photoId) = some d)
          ∧ (fs.lookup (groupDst (personFolderName persons q) photoId) = none →
            (routePhoto photoId src personIds persons fs).1.lookup
              (groupDst (personFolderName persons q) photoId) = some c)) := by
  refine ⟨?_, ?_, ?_, ?_, ?_⟩
  · intro hnil
    obtain ⟨rest, hmv⟩ := moveToFolder_shape src "Admin/NoFaces" fs c hsrc
    unfold routePhoto
    rw [hnil]
    dsimp only
    exact ⟨rfl, rest, by rw [hmv]⟩
  · intro pid hone
    unfold routePhoto
    rw [hone]
    dsimp only
    have hok := copyOrLink_ok_of_src src (soloDst (personFolderName persons pid) photoId) fs c hsrc
    refine ⟨by rw [hok, if_pos rfl], ?_, ?_⟩
    · intro hnone
      show (copyOrLink src (soloDst (personFolderName persons pid) photoId) fs).1 = _
      unfold copyOrLink
      rw [hnone, hsrc]
    · intro d hd
      show (copyOrLink src (soloDst (personFolderName persons pid) photoId) fs).1 = fs
      unfold copyOrLink
      rw [hd]
  · intro pid pid2 rest htwo
    unfold routePhoto
    rw [htwo]
    dsimp only
    exact ((routeGroup_routed photoId src persons c (pid :: pid2 :: rest) fs [] hsrc).1).trans
      (by simp)
  · intro pid pid2 rest htwo k hk
    unfold routePhoto
    rw [htwo]
    dsimp only
    exact routeGroup_frame photoId src persons (pid :: pid2 :: rest) fs [] k hk
  · intro pid pid2 rest htwo q hq
    unfold routePhoto
    rw [htwo]
    dsimp only
    exact routeGroup_dst photoId src persons c (pid :: pid2 :: rest) fs [] hsrc q hq

/-- Witness for C4 at scenario S2's shape: photo 2 with two persons routes
into both Group folders; hypotheses and the solo/group conclusions are
discharged at a concrete tree. -/
theorem C4_route_photo_w :
    ([("Processed/000002.jpg", "JPEG")] : FS).lookup "Processed/000002.jpg" = some "JPEG"
    ∧ ([1, 2] : List ℕ).dedup = [1, 2]
    ∧ (routePhoto 2 "Processed/000002.jpg" [1, 2]
        ([⟨1, "Person_001", e1, 1⟩, ⟨2, "Person_002", em1, 1⟩] : List (PersonR 1))
        [("Processed/000002.jpg", "JPEG")]).2
      = ["People/Person_001/Group/000002.jpg", "People/Person_002/Group/000002.jpg"] := by
  have hsrc : ([("Processed/000002.jpg", "JPEG")] : FS).lookup "Processed/000002.jpg"
      = some "JPEG" := by decide
  have hdedup : ([1, 2] : List ℕ).dedup = [1, 2] := by decide
  have h := (C4_route_photo 2 "Processed/000002.jpg" [1, 2]
      ([⟨1, "Person_001", e1, 1⟩, ⟨2, "Person_002", em1, 1⟩] : List (PersonR 1))
      [("Processed/000002.jpg", "JPEG")] "JPEG" hsrc).2.2.1 1 2 [] hdedup
  refine ⟨hsrc, hdedup, ?_⟩
  rw [h]
  have h1 : personFolderName ([⟨1, "Person_001", e1, 1⟩, ⟨2, "Person_002", em1, 1⟩]
      : List (PersonR 1)) 1 = "Person_001" := rfl
  have h2 : personFolderName ([⟨1, "Person_001", e1, 1⟩, ⟨2, "Person_002", em1, 1⟩]
      : List (PersonR 1)) 2 = "Person_002" := rfl
  rw [List.map_cons, List.map_cons, List.map_nil, h1, h2]
  rfl

/-! ## Enrollment (`enrollment.py`) -/

/-- One detected face as the analyzer delivers it to enrollment: embedding
plus detection confidence (the bbox plays no role here). -/
structure DFace (n : ℕ) where
  embedding : Vec n
  confidence : ℝ

/-- One `enrollments` row (the fields enrollment decisions read). -/
structure EnrollRow where
  personId : ℕ
  userName : String
deriving DecidableEq, Repr

/-- The state `enroll_user` touches: persons table, enrollments table, the
folder names existing under `People/`, and the upload queue. -/
structure EnrollState (n : ℕ) where
  persons : List (PersonR n)
  enrollments : List EnrollRow
  folders : List String
  uploads : List UploadJob

inductive EnrollOutcome where
  | noFace
  | noMatch (confidence : ℝ)
  | alreadyEnrolled (existingUser : String) (personId : ℕ) (confidence : ℝ)
  | enrolled (personId : ℕ) (folderName : String) (confidence : ℝ)

/-- Python's `max(faces, key=lambda f: f.confidence)`: first maximal
element, replaced only on strictly greater confidence. -/
noncomputable def bestFace {n : ℕ} : DFace n → List (DFace n) → DFace n
  | b, [] => b
  | b, f :: fs => if f.confidence > b.confidence then bestFace f fs else bestFace b fs

/-- `sanitize_folder_name` (`enrollment.py:42-52`): drop characters that
are not word characters, whitespace or hyphens (`\w` read as alphanumeric
plus underscore), collapse whitespace runs to single underscores after
stripping, cap at 50 characters, fall back to "Unknown". -/
def sanitizeFolderName (name : String) : String :=
  let kept := name.data.filter fun c => c.isAlphanum || c == '_' || c.isWhitespace || c == '-'
  let words := ((String.mk kept).split fun c => c.isWhitespace).filter (· != "")
  let joined := String.intercalate "_" words
  let clipped := String.mk (joined.data.take 50)
  if clipped = "" then "Unknown" else clipped

/-- `generate_unique_folder_name` (`enrollment.py:55-68`). -/
def generateUniqueFolderName (base : String) (pid : ℕ) (folders : List String) : String :=
  if folders.contains base then base ++ "_" ++ toString pid else base

/-- `rename_person_folder` (`enrollment.py:71-154`) on the modelled state:
look the person up, compute the unique safe name, move the folder, update
the person's name, rewrite pending upload paths.  The filesystem and cloud
calls are total here (their failure paths return early in the source);
returns the success flag and the new folder name. -/
def renamePersonFolder {n : ℕ} (pid : ℕ) (newName : String) (now : ℕ)
    (st : EnrollState n) : EnrollState n × Bool × String :=
  match st.persons.find? fun p => p.id == pid with
  | none => (st, false, "")
  | some person =>
      let oldName := person.name
      let unique := generateUniqueFolderName (sanitizeFolderName newName) pid st.folders
      ({ st with
          folders := unique :: st.folders.filter fun f => f != oldName,
          persons := st.persons.map fun p => if p.id = pid then { p with name := unique } else p,
          uploads := updateUploadPaths oldName unique now st.uploads },
       true, unique)

/-- `enroll_user` (`enrollment.py:194-359`) from the detection result on:
no faces ⇒ NoFace; otherwise take the highest-confidence face, normalize,
match against all persons (NoMatch with confidence 0 when none exist, with
`1 - d` when the nearest distance reaches the threshold), refuse an already
enrolled person, otherwise rename the folder and append the enrollment
row. -/
noncomputable def enrollUser {n : ℕ} (faces : List (DFace n)) (userName : String)
    (t : ℝ) (now : ℕ) (st : EnrollState n) : EnrollOutcome × EnrollState n :=
  match faces with
  | [] => (EnrollOutcome.noFace, st)
  | f0 :: rest =>
      let best := bestFace f0 rest
      let e := normalizeV best.embedding
      if st.persons.isEmpty then (EnrollOutcome.noMatch 0, st)
      else
        match findNearest e st.persons with
        | none => (EnrollOutcome.noMatch 0, st)
        | some (p, d) =>
            if d ≥ t then (EnrollOutcome.noMatch (1 - d), st)
            else
              match st.enrollments.find? fun en => en.personId == p.id with
              | some en => (EnrollOutcome.alreadyEnrolled en.userName p.id (1 - d), st)
              | none =>
                  let r := renamePersonFolder p.id userName now st
                  (EnrollOutcome.enrolled p.id r.2.2 (1 - d),
                   { r.1 with enrollments := r.1.enrollments ++ [⟨p.id, userName⟩] })

theorem bestFace_spec {n : ℕ} (l : List (DFace n)) :
    ∀ b : DFace n,
      (bestFace b l = b ∨ bestFace b l ∈ l)
      ∧ b.confidence ≤ (bestFace b l).confidence
      ∧ ∀ f ∈ l, f.confidence ≤ (bestFace b l).confidence := by
  induction l with
  | nil =>
      intro b
      exact ⟨Or.inl rfl, le_refl _, fun f hf => absurd hf (List.not_mem_nil f)⟩
  | cons f fs ih =>
      intro b
      have heq : bestFace b (f :: fs)
          = if f.confidence > b.confidence then bestFace f fs else bestFace b fs := rfl
      rw [heq]
      by_cases hgt : f.confidence > b.confidence
      · rw [if_pos hgt]
        obtain ⟨hmem, hle, hall⟩ := ih f
        refine ⟨?_, le_trans (le_of_lt hgt) hle, ?_⟩
        · rcases hmem with h | h
          · exact Or.inr (by rw [h]; exact List.mem_cons_self _ _)
          · exact Or.inr (List.mem_cons_of_mem _ h)
        · intro g hg
          rcases List.mem_cons.1 hg with h | h
          · rw [h]; exact hle
          · exact hall g h
      · rw [if_neg hgt]
        obtain ⟨hmem, hle, hall⟩ := ih b
        refine ⟨?_, hle, ?_⟩
        · rcases hmem with h | h
          · exact Or.inl h
          · exact Or.inr (List.mem_cons_of_mem _ h)
        · intro g hg
          rcases List.mem_cons.1 hg with h | h
          · rw [h]; exact le_trans (not_lt.1 hgt) hle
          · exact hall g h

theorem findNearestGo_map {n : ℕ} (e : Vec n) (g : PersonR n → PersonR n)
    (hg : ∀ q, (g q).centroid = q.centroid) (l : List (PersonR n)) :
    ∀ (b : PersonR n) (d : ℝ),
      findNearestGo e (g b) d (l.map g)
        = ((findNearestGo e b d l).1 |> g, (findNearestGo e b d l).2) := by
  induction l with
  | nil => intro b d; rfl
  | cons x xs ih =>
      intro b d
      rw [List.map_cons]
      unfold findNearestGo
      rw [hg x]
      by_cases hlt : cosineDistance e x.centroid < d
      · rw [if_pos hlt, if_pos hlt]
        exact ih x (cosineDistance e x.centroid)
      · rw [if_neg hlt, if_neg hlt]
        exact ih b d

theorem findNearest_map {n : ℕ} (e : Vec n) (g : PersonR n → PersonR n)
    (hg : ∀ q, (g q).centroid = q.centroid) (l : List (PersonR n)) (p : PersonR n) (d : ℝ)
    (h : findNearest e l = some (p, d)) :
    findNearest e (l.map g) = some (g p, d) := by
  cases l with
  | nil => exact absurd h (by simp [findNearest])
  | cons hd tl =>
      rw [List.map_cons]
      unfold findNearest at h ⊢
      dsimp only at h ⊢
      rw [hg hd]
      rw [findNearestGo_map e g hg tl hd (cosineDistance e hd.centroid)]
      rw [Option.some.injEq] at h
      rw [show findNearestGo e hd (cosineDistance e hd.centroid) tl = (p, d) from h]

theorem renamePersonFolder_enrollments {n : ℕ} (pid : ℕ) (nm : String) (now : ℕ)
    (st : EnrollState n) :
    (renamePersonFolder pid nm now st).1.enrollments = st.enrollments := by
  unfold renamePersonFolder
  cases st.persons.find? fun p => p.id == pid with
  | none => rfl
  | some person => rfl

/-- The per-row effect on the persons table of the `UPDATE persons SET name
= ? WHERE id = ?` inside `rename_person_folder`. -/
def renameById {n : ℕ} (pid : ℕ) (newName : String) (q : PersonR n) : PersonR n :=
  if q.id = pid then { q with name := newName } else q

theorem renameById_centroid {n : ℕ} (pid : ℕ) (nm : String) (q : PersonR n) :
    (renameById pid nm q).centroid = q.centroid := by
  unfold renameById
  split <;> rfl

theorem renameById_id {n : ℕ} (pid : ℕ) (nm : String) (q : PersonR n) :
    (renameById pid nm q).id = q.id := by
  unfold renameById
  split <;> rfl

theorem renamePersonFolder_persons {n : ℕ} (pid : ℕ) (nm : String) (now : ℕ)
    (st : EnrollState n) (q0 : PersonR n)
    (hfind : (st.persons.find? fun p => p.id == pid) = some q0) :
    (renamePersonFolder pid nm now st).1.persons
      = st.persons.map
          (renameById pid (generateUniqueFolderName (sanitizeFolderName nm) pid st.folders)) := by
  unfold renamePersonFolder renameById
  rw [hfind]

theorem find?_ne_none_of_mem {n : ℕ} (persons : List (PersonR n)) (p : PersonR n)
    (h : p ∈ persons) : (persons.find? fun q => q.id == p.id) ≠ none := by
  intro hnone
  have := List.find?_eq_none.1 hnone p h
  simp at this

theorem findNearest_mem {n : ℕ} (e : Vec n) (l : List (PersonR n)) (p : PersonR n) (d : ℝ)
    (h : findNearest e l = some (p, d)) : p ∈ l := by
  cases l with
  | nil => exact absurd h (by simp [findNearest])
  | cons hd tl =>
      unfold findNearest at h
      rw [Option.some.injEq] at h
      have hmem := (findNearestGo_spec e tl hd (cosineDistance e hd.centroid)).1
      rw [h] at hmem
      rcases hmem with hmem | hmem
      · rw [show p = (p, d).1 from rfl, hmem]
        exact List.mem_cons_self _ _
      · exact List.mem_cons_of_mem _ hmem

/-- C7: `enroll_user` fails in the specified order — NoFace on zero
detections; highest-confidence face otherwise; NoMatch (confidence 0) with
no persons; NoMatch with confidence `1 - d` when the nearest distance
reaches the threshold; AlreadyEnrolled (naming the existing user) when the
matched person has an enrollment; only otherwise rename-and-enroll — so a
success implies no prior enrollment for that person, and repeating the same
selfie immediately yields AlreadyEnrolled with the first caller's name and
the same confidence.  (`enrollment.py:194-359`.) -/
theorem C7_enroll_user {n : ℕ} (userName userName2 : String) (t : ℝ) (now now2 : ℕ)
    (st : EnrollState n) (f0 : DFace n) (rest : List (DFace n)) :
    enrollUser ([] : List (DFace n)) userName t now st = (EnrollOutcome.noFace, st)
    ∧ bestFace f0 rest ∈ f0 :: rest
    ∧ (∀ f ∈ f0 :: rest, f.confidence ≤ (bestFace f0 rest).confidence)
    ∧ (st.persons = [] →
        enrollUser (f0 :: rest) userName t now st = (EnrollOutcome.noMatch 0, st))
    ∧ (∀ p d, findNearest (normalizeV (bestFace f0 rest).embedding) st.persons = some (p, d) →
        (d ≥ t →
          enrollUser (f0 :: rest) userName t now st = (EnrollOutcome.noMatch (1 - d), st))
        ∧ (∀ en, ¬ d ≥ t →
            (st.enrollments.find? fun x => x.personId == p.id) = some en →
            enrollUser (f0 :: rest) userName t now st
              = (EnrollOutcome.alreadyEnrolled en.userName p.id (1 - d), st))
        ∧ (¬ d ≥ t →
            (st.enrollments.find? fun x => x.personId == p.id) = none →
            enrollUser (f0 :: rest) userName t now st
              = (EnrollOutcome.enrolled p.id (renamePersonFolder p.id userName now st).2.2 (1 - d),
                 { (renamePersonFolder p.id userName now st).1 with
                   enrollments := (renamePersonFolder p.id userName now st).1.enrollments
                     ++ [⟨p.id, userName⟩] })
            ∧ (∀ en ∈ st.enrollments, en.personId ≠ p.id)
            ∧ (enrollUser (f0 :: rest) userName2 t now2
                 (enrollUser (f0 :: rest) userName t now st).2).1
                = EnrollOutcome.alreadyEnrolled userName p.id (1 - d))) := by
  obtain ⟨hbmem, hble, hbmax⟩ := bestFace_spec rest f0
  refine ⟨rfl, ?_, ?_, ?_, ?_⟩
  · rcases hbmem with h | h
    · rw [h]; exact List.mem_cons_self _ _
    · exact List.mem_cons_of_mem _ h
  · intro f hf
    rcases List.mem_cons.1 hf with h | h
    · rw [h]; exact hble
    · exact hbmax f h
  · intro hnil
    unfold enrollUser
    dsimp only
    rw [if_pos (by rw [hnil]; rfl)]
  · intro p d h
    have hne : st.persons ≠ [] := by
      intro h0
      rw [h0] at h
      exact absurd h (by simp [findNearest])
    have hempty : st.persons.isEmpty = false := by
      cases hps : st.persons with
      | nil => exact absurd hps hne
      | cons a l => rfl
    refine ⟨?_, ?_, ?_⟩
    · intro hge
      unfold enrollUser
      dsimp only
      rw [hempty]
      rw [if_neg (by simp), h]
      dsimp only
      rw [if_pos hge]
    · intro en hlt hfound
      unfold enrollUser
      dsimp only
      rw [hempty]
      rw [if_neg (by simp), h]
      dsimp only
      rw [if_neg hlt, hfound]
    · intro hlt hnone
      have hfirst : enrollUser (f0 :: rest) userName t now st
          = (EnrollOutcome.enrolled p.id (renamePersonFolder p.id userName now st).2.2 (1 - d),
             { (renamePersonFolder p.id userName now st).1 with
               enrollments := (renamePersonFolder p.id userName now st).1.enrollments
                 ++ [⟨p.id, userName⟩] }) := by
        unfold enrollUser
        dsimp only
        rw [hempty]
        rw [if_neg (by simp), h]
        dsimp only
        rw [if_neg hlt, hnone]
      have hnoprior : ∀ en ∈ st.enrollments, en.personId ≠ p.id := by
        intro en hen heq
        have := List.find?_eq_none.1 hnone en hen
        rw [heq] at this
        simp at this
      refine ⟨hfirst, hnoprior, ?_⟩
      rw [hfirst]
      -- the state after the first call
      have hp_mem : p ∈ st.persons :=
        findNearest_mem (normalizeV (bestFace f0 rest).embedding) st.persons p d h
      obtain ⟨q0, hq0⟩ : ∃ q0, (st.persons.find? fun q => q.id == p.id) = some q0 := by
        cases hf : st.persons.find? fun q => q.id == p.id with
        | none => exact absurd hf (find?_ne_none_of_mem st.persons p hp_mem)
        | some q0 => exact ⟨q0, rfl⟩
      have hpersons2 : ({ (renamePersonFolder p.id userName now st).1 with
            enrollments := (renamePersonFolder p.id userName now st).1.enrollments
              ++ [⟨p.id, userName⟩] } : EnrollState n).persons
          = st.persons.map
              (renameById p.id
                (generateUniqueFolderName (sanitizeFolderName userName) p.id st.folders)) := by
        show (renamePersonFolder p.id userName now st).1.persons = _
        exact renamePersonFolder_persons p.id userName now st q0 hq0
      have hfn2 := findNearest_map (normalizeV (bestFace f0 rest).embedding)
        (renameById p.id (generateUniqueFolderName (sanitizeFolderName userName) p.id st.folders))
        (fun q => renameById_centroid _ _ q) st.persons p d h
      unfold enrollUser
      dsimp only
      rw [hpersons2]
      have hempty2 : (st.persons.map
          (renameById p.id
            (generateUniqueFolderName (sanitizeFolderName userName) p.id st.folders))).isEmpty
          = false := by
        cases hps : st.persons with
        | nil => exact absurd hps hne
        | cons a l => rw [List.map_cons]; rfl
      rw [hempty2]
      rw [if_neg (by simp), hfn2]
      dsimp only
      rw [if_neg hlt]
      have hfind2 : (({ (renamePersonFolder p.id userName now st).1 with
            enrollments := (renamePersonFolder p.id userName now st).1.enrollments
              ++ [⟨p.id, userName⟩] } : EnrollState n).enrollments.find? fun en =>
                en.personId ==
                  (renameById p.id
                    (generateUniqueFolderName (sanitizeFolderName userName) p.id st.folders)
                    p).id)
          = some ⟨p.id, userName⟩ := by
        show (((renamePersonFolder p.id userName now st).1.enrollments
            ++ [(⟨p.id, userName⟩ : EnrollRow)]).find? fun en =>
              en.personId ==
                (renameById p.id
                  (generateUniqueFolderName (sanitizeFolderName userName) p.id st.folders)
                  p).id)
          = some (⟨p.id, userName⟩ : EnrollRow)
        rw [renamePersonFolder_enrollments, List.find?_append]
        have h1 : (st.enrollments.find? fun en =>
            en.personId ==
              (renameById p.id
                (generateUniqueFolderName (sanitizeFolderName userName) p.id st.folders)
                p).id) = none := by
          rw [List.find?_eq_none] at hnone ⊢
          intro x hx
          rw [renameById_id]
          exact hnone x hx
        rw [h1]
        show (([⟨p.id, userName⟩] : List EnrollRow).find? fun en =>
              en.personId ==
                (renameById p.id
                  (generateUniqueFolderName (sanitizeFolderName userName) p.id st.folders)
                  p).id)
          = some ⟨p.id, userName⟩
        rw [List.find?_cons]
        dsimp only
        rw [renameById_id]
        rw [beq_self_eq_true]
      rw [hfind2]
      dsimp only
      rw [renameById_id]

theorem cosineDistance_e1_e1 : cosineDistance e1 e1 = 0 := by
  unfold cosineDistance
  rw [if_neg]
  · have hdot : dot e1 e1 = 1 := by
      unfold dot e1
      rw [Fin.sum_univ_one]
      norm_num
    rw [hdot, vnorm_e1]
    norm_num
  · rw [vnorm_e1]
    norm_num

/-- Witness for C7: a selfie matching the only person at distance 0 with
threshold 0.6; the first call enrolls "Jane Doe", the immediate second call
with the same selfie returns AlreadyEnrolled naming "Jane Doe". -/
theorem C7_enroll_user_w :
    ¬ (0 : ℝ) ≥ 0.6
    ∧ findNearest (normalizeV (bestFace (⟨e1, 0.99⟩ : DFace 1) []).embedding)
        ([⟨1, "Person_001", e1, 1⟩] : List (PersonR 1)) = some (⟨1, "Person_001", e1, 1⟩, 0)
    ∧ (([] : List EnrollRow).find? fun x =>
        x.personId == (⟨1, "Person_001", e1, 1⟩ : PersonR 1).id) = none
    ∧ (enrollUser [(⟨e1, 0.99⟩ : DFace 1)] "Second Caller" 0.6 1
         (enrollUser [(⟨e1, 0.99⟩ : DFace 1)] "Jane Doe" 0.6 0
           (⟨[⟨1, "Person_001", e1, 1⟩], [], ["Person_001"], []⟩ : EnrollState 1)).2).1
        = EnrollOutcome.alreadyEnrolled "Jane Doe" 1 (1 - 0) := by
  have hlt : ¬ (0 : ℝ) ≥ 0.6 := by norm_num
  have hfn : findNearest (normalizeV (bestFace (⟨e1, 0.99⟩ : DFace 1) []).embedding)
      ([⟨1, "Person_001", e1, 1⟩] : List (PersonR 1))
      = some (⟨1, "Person_001", e1, 1⟩, 0) := by
    show findNearest (normalizeV e1) [⟨1, "Person_001", e1, 1⟩]
        = some (⟨1, "Person_001", e1, 1⟩, 0)
    rw [normalizeV_e1]
    show some ((⟨1, "Person_001", e1, 1⟩ : PersonR 1), cosineDistance e1 e1)
        = some ((⟨1, "Person_001", e1, 1⟩ : PersonR 1), 0)
    rw [cosineDistance_e1_e1]
  have hnone : (([] : List EnrollRow).find? fun x =>
      x.personId == (⟨1, "Person_001", e1, 1⟩ : PersonR 1).id) = none := rfl
  refine ⟨hlt, hfn, hnone, ?_⟩
  exact ((C7_enroll_user "Jane Doe" "Second Caller" 0.6 0 1
      (⟨[⟨1, "Person_001", e1, 1⟩], [], ["Person_001"], []⟩ : EnrollState 1)
      (⟨e1, 0.99⟩ : DFace 1) []).2.2.2.2 ⟨1, "Person_001", e1, 1⟩ 0 hfn).2.2 hlt hnone
    |>.2.2

/-! ## Worker status decisions (`worker.py:108-241`, `processor.py`) -/

/-- How the face-analysis step can go for one photo: the processed image is
unreadable by the detector (`cv2.imread` returns `None`,
`processor.py:266-269`), the analyzer raises (`processor.py:318-322`), or
it returns a face list. -/
inductive DetectRun (n : ℕ) where
  | unreadable
  | analyzerRaised
  | detected (faces : List (DFace n))

/-- `detect_faces` (`processor.py:256-322`): both failure modes are caught
and reported as an empty face list. -/
def detectFaces {n : ℕ} : DetectRun n → List (DFace n)
  | DetectRun.unreadable => []
  | DetectRun.analyzerRaised => []
  | DetectRun.detected fs => fs

/-- The slice of `ProcessingResult` the worker's decisions read. -/
structure ProcResult (n : ℕ) where
  success : Bool
  faces : List (DFace n)

/-- `process_photo` (`processor.py:335-390`): normalization failure is the
only unsuccessful outcome; afterwards whatever `detect_faces` returned is a
success, faces or not. -/
def processPhotoM {n : ℕ} (normOk : Bool) (run : DetectRun n) : ProcResult n :=
  if normOk then ⟨true, detectFaces run⟩ else ⟨false, []⟩

/-- How the Solo/Group fan-out went: `route_photo` returned a list of
successfully routed paths (possibly empty — every copy failed), or raised. -/
inductive RouteOutcome where
  | ok (paths : List String)
  | raised

inductive FileDest where
  | admErrors
  | admNoFaces
  | peopleFolders
deriving DecidableEq, Repr

/-- The photo status `process_single_photo` commits (`worker.py:108-212`):
`error` only when processing failed; `no_faces` for an empty face list;
`completed` whenever faces exist — in the routing `try` branch regardless
of how many destinations succeeded, and in its `except` branch as well
("Still mark as completed in DB since faces were detected and stored"). -/
def photoFinalStatus {n : ℕ} (normOk : Bool) (run : DetectRun n) (route : RouteOutcome) :
    PStatus :=
  let result := processPhotoM normOk run
  if result.success = false then PStatus.error
  else if result.faces.isEmpty then PStatus.noFaces
  else
    match route with
    | RouteOutcome.ok _ => PStatus.completed
    | RouteOutcome.raised => PStatus.completed

/-- Where the photo's file ends up (`worker.py:145-212`): the original to
`Admin/Errors` on processing failure, the processed JPEG to
`Admin/NoFaces` on an empty face list, the People tree otherwise. -/
def photoFileDest {n : ℕ} (normOk : Bool) (run : DetectRun n) (route : RouteOutcome) :
    FileDest :=
  let result := processPhotoM normOk run
  if result.success = false then FileDest.admErrors
  else if result.faces.isEmpty then FileDest.admNoFaces
  else FileDest.peopleFolders

/-- C8 counterexample: faces were detected and persisted, every routing
destination failed (`route_photo` returned an empty list), yet the worker
marks the photo `completed`, where the claim demands `error`. -/
theorem C8_completed_iff_routed_cex :
    photoFinalStatus true (DetectRun.detected [(⟨e1, 0.9⟩ : DFace 1)]) (RouteOutcome.ok [])
      = PStatus.completed
    ∧ PStatus.completed ≠ PStatus.error := by
  constructor
  · rfl
  · decide

/-- C8 (amended): once faces are detected and persisted, the worker marks
the photo `completed` regardless of the routing outcome — even when every
destination failed or routing raised; the routing outcome never influences
the status, and only a processing failure yields `error`.
(`worker.py:183-212`.) -/
theorem C8_completed_despite_route_failure {n : ℕ} (f : DFace n) (fs : List (DFace n))
    (run : DetectRun n) (route route' : RouteOutcome) :
    photoFinalStatus true (DetectRun.detected (f :: fs)) route = PStatus.completed
    ∧ photoFinalStatus true run route = photoFinalStatus true run route'
    ∧ photoFinalStatus false run route = PStatus.error := by
  refine ⟨?_, ?_, rfl⟩
  · cases route <;> rfl
  · cases run <;> cases route <;> cases route' <;> rfl

/-- C9 counterexample: the analyzer raising (a DetectError) produces photo
status `no_faces` and routes the processed JPEG to `Admin/NoFaces` — not
status `error` with the original in `Admin/Errors` as claimed. -/
theorem C9_detect_error_cex :
    photoFinalStatus true (DetectRun.analyzerRaised : DetectRun 1) (RouteOutcome.ok [])
      = PStatus.noFaces
    ∧ photoFileDest true (DetectRun.analyzerRaised : DetectRun 1) (RouteOutcome.ok [])
      = FileDest.admNoFaces
    ∧ PStatus.noFaces ≠ PStatus.error
    ∧ FileDest.admNoFaces ≠ FileDest.admErrors := by
  refine ⟨rfl, rfl, ?_, ?_⟩ <;> decide

/-- C9 (amended): `detect_faces` swallows both failure modes into an empty
face list, so an analyzer failure (or unreadable processed image) is
classified as a no-face photo: status `no_faces`, processed JPEG to
`Admin/NoFaces`.  Only a normalization (decode) failure takes the
Processor-error path: status `error`, original to `Admin/Errors`.
(`processor.py:256-322`, `worker.py:143-181`.) -/
theorem C9_detect_error_swallowed {n : ℕ} (run : DetectRun n) (route : RouteOutcome) :
    detectFaces (DetectRun.analyzerRaised : DetectRun n) = []
    ∧ detectFaces (DetectRun.unreadable : DetectRun n) = []
    ∧ photoFinalStatus true (DetectRun.analyzerRaised : DetectRun n) route = PStatus.noFaces
    ∧ photoFileDest true (DetectRun.analyzerRaised : DetectRun n) route = FileDest.admNoFaces
    ∧ photoFinalStatus true (DetectRun.unreadable : DetectRun n) route = PStatus.noFaces
    ∧ photoFileDest true (DetectRun.unreadable : DetectRun n) route = FileDest.admNoFaces
    ∧ photoFinalStatus false run route = PStatus.error
    ∧ photoFileDest false run route = FileDest.admErrors := by
  exact ⟨rfl, rfl, rfl, rfl, rfl, rfl, rfl, rfl⟩

end WFF
